import Mathlib

set_option maxHeartbeats 1000000

/-! Shallow embedding of the Edge-Cloud IoT resource-allocation engine
(`structs.h`, `utils.h`, the `NetworkResourceAllocation` namespace,
`Heuristics.h` and the `MetaHeuristics` simulated-annealing file).

Modelling conventions:
* C++ `double` is modelled as `ℚ` (exact rational arithmetic standing for
  ideal real arithmetic); `int` counts are `Int`; ids and vector indices
  are `ℕ`; `std::set<int>` is `Finset ℕ`.
* In-place mutation is modelled by explicit state passing: a C++ member
  function mutating `this` and an argument becomes a Lean function
  returning the updated copies.
* A C++ operation that can throw (`std::vector::at` out of range, the
  `min > max` guard of `utils::randomNumber` / `utils::shuffledRange`)
  is modelled as an `Option`-valued function, `none` meaning the throw.
* Randomness is passed in explicitly: a shuffled list is a parameter
  (standing for the output of `std::shuffle` / `utils::shuffledRange`),
  and a call `utils::randomNumber(0, n)` is modelled by `randomNumber0
  seed n = seed % (n+1)`, which realises exactly the support `[0, n]`
  of the uniform draw.  The Metropolis acceptance test
  `randomNumber(0.0, 1.0) < exp(-delta / T)` compares a uniform real
  draw against a transcendental value; its outcome is modelled as an
  explicit `Bool` input (every outcome has positive probability).
* Wall-clock fields (`execution_time_sec`) and the string labels and
  file/console output of `Metrics` are outside the embedding (real time
  and I/O).
-/

/-- Embedding of `server_covering` (structs.h): a pre-calculated candidate
link between a device and a server. -/
structure server_covering where
  id : Nat := 0
  id_routing : Nat := 0
  distance : ℚ := 0
  connectionTime : ℚ := 0
  processingTime : ℚ := 0
  responseTime : ℚ := 0
deriving DecidableEq

/-- Embedding of `server_supply` (structs.h): the running demand
accumulator of a server. -/
structure server_supply where
  pcnD : Int := 0
  cndD : ℚ := 0
  pccD : ℚ := 0
  memD : ℚ := 0
  stoD : ℚ := 0
  bwD : ℚ := 0
  devices_served : Finset Nat := ∅
deriving DecidableEq

/-- Embedding of `Device` (structs.h). -/
structure Device where
  id : Nat := 0
  pcn : Int := 0
  svc : Int := 0
  lat : ℚ := 0
  lon : ℚ := 0
  cnd : ℚ := 0
  pcc : ℚ := 0
  mem : ℚ := 0
  sto : ℚ := 0
  s_d : ℚ := 0
  bw : ℚ := 0
  covered : Bool := false
  served : Bool := false
  server : server_covering := {}
  servers : List server_covering := []
deriving DecidableEq

/-- Embedding of `Server` (structs.h). -/
structure Server where
  id : Nat := 0
  pcn : Int := 0
  type : Char := ' '
  lat : ℚ := 0
  lon : ℚ := 0
  csc : ℚ := 0
  pcc_per_core : ℚ := 0
  pcc_total : ℚ := 0
  mem : ℚ := 0
  sto : ℚ := 0
  t_p : ℚ := 0
  bw : ℚ := 0
  «on» : Bool := false
  supply : server_supply := {}
deriving DecidableEq

/-- Embedding of `Server::canServe` (structs.h, lines 102-108): the pure
five-dimensional capacity check. -/
def Server.canServe (s : Server) (d : Device) : Bool :=
  decide (s.supply.pccD + d.pcc ≤ s.pcc_total) &&
  decide (s.supply.pcnD + d.pcn ≤ s.pcn) &&
  decide (s.supply.memD + d.mem ≤ s.mem) &&
  decide (s.supply.stoD + d.sto ≤ s.sto) &&
  decide (s.supply.bwD + d.bw ≤ s.bw)

/-- Embedding of `Server::addServed` (structs.h, lines 118-131).  Returns
the updated server, the updated device and the C++ return value. -/
def Server.addServed (s : Server) (d : Device) : Server × Device × Bool :=
  if d.id ∈ s.supply.devices_served then (s, d, false)
  else
    ({ s with
        «on» := true
        supply :=
          { s.supply with
              devices_served := insert d.id s.supply.devices_served
              cndD := s.supply.cndD + d.cnd
              pccD := s.supply.pccD + d.pcc
              pcnD := s.supply.pcnD + d.pcn
              memD := s.supply.memD + d.mem
              stoD := s.supply.stoD + d.sto
              bwD := s.supply.bwD + d.bw } },
     { d with served := true }, true)

/-- Embedding of `Server::rmvServed` (structs.h, lines 141-158).  Returns
the updated server, the updated device and the C++ return value. -/
def Server.rmvServed (s : Server) (d : Device) : Server × Device × Bool :=
  if d.id ∉ s.supply.devices_served then (s, d, false)
  else
    let sup : server_supply :=
      { pcnD := s.supply.pcnD - d.pcn
        cndD := s.supply.cndD - d.cnd
        pccD := s.supply.pccD - d.pcc
        memD := s.supply.memD - d.mem
        stoD := s.supply.stoD - d.sto
        bwD := s.supply.bwD - d.bw
        devices_served := s.supply.devices_served.erase d.id }
    ({ s with
        supply := sup
        «on» := if sup.devices_served = ∅ then false else s.on },
     { d with served := false }, true)

/-- Embedding of `Metrics::CommonInputs` (structs.h). -/
structure MetricsInputs where
  devices : Int := 0
  servers_ec : Int := 0
  servers_cc : Int := 0
  tech : Int := 0
deriving DecidableEq

/-- Embedding of `Metrics::CommonOutputs` (structs.h); the wall-clock
field `execution_time_sec` is outside the embedding. -/
structure MetricsOutputs where
  devices_covered_count : Nat := 0
  devices_served_count : Nat := 0
  devices_served_ec_count : Nat := 0
  devices_served_cc_count : Nat := 0
  servers_used_count : Nat := 0
  servers_used_ec_count : Nat := 0
  servers_used_cc_count : Nat := 0
  cost_of_servers_used : ℚ := 0
  cost_of_non_coverage : ℚ := 0
  cost_of_non_service : ℚ := 0
  total_cost : ℚ := 0
  average_response_time : ℚ := 0
deriving DecidableEq

/-- Embedding of the numeric part of `Metrics` (structs.h); the string
labels and the file/console rendering are outside the embedding. -/
structure Metrics where
  inputs : MetricsInputs := {}
  outputs : MetricsOutputs := {}
deriving DecidableEq

/-- Embedding of `Result` (structs.h): the full state of one simulation
instance. -/
structure Result where
  devices : List Device
  servers : List Server
  coveredDevicesIdx : List Nat
  metrics : Metrics
deriving DecidableEq

/-- Models `utils::randomNumber(0, n)` for a non-negative upper bound: the
draw is parametrised by a `seed`, and `seed % (n+1)` realises exactly the
support `[0, n]` of the uniform distribution.  (For `0 ≤ n` the C++
`min > max` guard cannot fire.) -/
def randomNumber0 (seed n : Nat) : Nat := seed % (n + 1)

/-- The `cnd` attribute read `entities.at(i).cnd` of
`utils::details::sort_indices_impl`; out-of-range reads are excluded by
the guard in `sortEntities` below, so `getD` is only ever used in range. -/
def attrAt (entities : List Device) (i : Nat) : ℚ := (entities.getD i {}).cnd

/-- The complement of the strict comparator of
`utils::details::sort_indices_impl` (utils.h, lines 145-160) for the
`Device::cnd` attribute: `sortLe asc es i j` holds iff the C++ comparator
does NOT place `j` strictly before `i`.  Because the C++ comparator
(attribute in the chosen direction, ties broken by original index) is a
strict total order, a list is a possible `std::sort` output iff it is a
permutation of the input sorted by `sortLe`, and that output is unique. -/
def sortLe (asc : Bool) (entities : List Device) (i j : Nat) : Prop :=
  (attrAt entities i = attrAt entities j ∧ i ≤ j) ∨
  (attrAt entities i ≠ attrAt entities j ∧
    (if asc then attrAt entities i < attrAt entities j
     else attrAt entities j < attrAt entities i))

instance (asc : Bool) (entities : List Device) :
    DecidableRel (sortLe asc entities) := by
  intro i j; unfold sortLe; infer_instance

instance (asc : Bool) (entities : List Device) :
    IsTotal Nat (sortLe asc entities) where
  total i j := by
    by_cases h : attrAt entities i = attrAt entities j
    · rcases Nat.le_total i j with h' | h'
      · exact Or.inl (Or.inl ⟨h, h'⟩)
      · exact Or.inr (Or.inl ⟨h.symm, h'⟩)
    · rcases lt_or_gt_of_ne h with h' | h'
      · cases asc
        · exact Or.inr (Or.inr ⟨Ne.symm h, by simpa using h'⟩)
        · exact Or.inl (Or.inr ⟨h, by simpa using h'⟩)
      · cases asc
        · exact Or.inl (Or.inr ⟨h, by simpa using h'⟩)
        · exact Or.inr (Or.inr ⟨Ne.symm h, by simpa using h'⟩)

instance (asc : Bool) (entities : List Device) :
    IsTrans Nat (sortLe asc entities) where
  trans i j k hij hjk := by
    rcases hij with ⟨e1, l1⟩ | ⟨n1, l1⟩ <;> rcases hjk with ⟨e2, l2⟩ | ⟨n2, l2⟩
    · exact Or.inl ⟨e1.trans e2, l1.trans l2⟩
    · exact Or.inr ⟨by rw [e1]; exact n2, by rw [e1]; exact l2⟩
    · exact Or.inr ⟨by rw [← e2]; exact n1, by rw [← e2]; exact l1⟩
    · cases asc <;> simp only [Bool.false_eq_true, if_false, if_true, ite_true, ite_false] at *
      · exact Or.inr ⟨ne_of_gt (lt_trans l2 l1), lt_trans l2 l1⟩
      · exact Or.inr ⟨ne_of_lt (lt_trans l1 l2), lt_trans l1 l2⟩

instance (asc : Bool) (entities : List Device) :
    IsAntisymm Nat (sortLe asc entities) where
  antisymm i j hij hji := by
    rcases hij with ⟨e1, l1⟩ | ⟨n1, l1⟩
    · rcases hji with ⟨_, l2⟩ | ⟨n2, _⟩
      · exact Nat.le_antisymm l1 l2
      · exact absurd e1.symm n2
    · rcases hji with ⟨e2, _⟩ | ⟨n2, l2⟩
      · exact absurd e2.symm n1
      · cases asc <;> simp only [ite_true, ite_false, Bool.false_eq_true, if_false] at l1 l2
        · exact absurd l2 (not_lt_of_gt l1)
        · exact absurd l2 (not_lt_of_gt l1)

/-- Embedding of the two-argument `utils::sortEntities` overload
(utils.h, lines 196-202) specialised to `&Device::cnd` as used by
`greedyHeuristic`.  `std::sort` under the strict total comparator of
`sort_indices_impl` has a unique possible output, the `sortLe`-sorted
permutation, here produced by insertion sort.  The in-range guard models
the `entities.at(i)` calls inside the comparator: when some index is out
of range the C++ comparator would throw (`none`). -/
def sortEntities (asc : Bool) (entities : List Device) (idxs : List Nat) :
    Option (List Nat) :=
  if entities.isEmpty || idxs.isEmpty then some []
  else if idxs.all (fun i => decide (i < entities.length)) then
    some (List.insertionSort (sortLe asc entities) idxs)
  else none

/-- The comparator of the in-place candidate sort of `greedyHeuristic`
(Heuristics.h, lines 79-86), as a non-strict total relation: ascending or
descending `responseTime`.  `std::sort` guarantees only sortedness with
respect to the strict comparator; ties are ordered arbitrarily, and this
embedding fixes the stable (insertion-sort) choice. -/
def rtLe (asc : Bool) (a b : server_covering) : Prop :=
  if asc then a.responseTime ≤ b.responseTime else b.responseTime ≤ a.responseTime

instance (asc : Bool) : DecidableRel (rtLe asc) := by
  intro a b; unfold rtLe; infer_instance

/-- The in-place sort of a device's candidate list performed by
`greedyHeuristic` (Heuristics.h, lines 78-86). -/
def sortByResponseTime (asc : Bool) (l : List server_covering) :
    List server_covering :=
  List.insertionSort (rtLe asc) l

/-- One device of the device scan of
`NetworkResourceAllocation::calculateMetrics` (DataGenerator.h):
accumulator is (served count, served-EC count, served-CC count, summed
response time, cost of non-service); `none` models the
`servers.at(device.server.id)` throw. -/
def devMetricsStep (servers : List Server) (acc : Nat × Nat × Nat × ℚ × ℚ)
    (d : Device) : Option (Nat × Nat × Nat × ℚ × ℚ) :=
  let (sc, ec, cc, art, cns) := acc
  if d.id = 0 then some acc
  else if d.served then
    match servers.get? d.server.id with
    | none => none
    | some s =>
        if s.type = 'E' then
          some (sc + 1, ec + 1, cc, art + d.server.responseTime, cns)
        else
          some (sc + 1, ec, cc + 1, art + d.server.responseTime, cns)
  else if d.covered then some (sc, ec, cc, art, cns + d.cnd)
  else some acc

/-- The server scan of `NetworkResourceAllocation::calculateMetrics`:
accumulator is (cost of servers used, used-EC count, used-CC count). -/
def srvMetricsStep (acc : ℚ × Nat × Nat) (s : Server) : ℚ × Nat × Nat :=
  let (csu, ec, cc) := acc
  if s.id = 0 then acc
  else if s.on then
    if s.type = 'E' then (csu + s.csc, ec + 1, cc) else (csu + s.csc, ec, cc + 1)
  else acc

/-- Embedding of `NetworkResourceAllocation::calculateMetrics`
(DataGenerator.h, lines 555-600): resets the output counters and
recomputes them by a full scan of the given device and server states.
`cost_of_non_coverage` and `devices_covered_count` are preserved, exactly
as in the code. -/
def calculateMetrics (devices : List Device) (servers : List Server)
    (m : Metrics) : Option Metrics := do
  let (sc, ec, cc, art, cns) ← devices.foldlM (devMetricsStep servers) (0, 0, 0, 0, 0)
  let (csu, uec, ucc) := servers.foldl srvMetricsStep (0, 0, 0)
  let art2 := if 0 < sc then art / (sc : ℚ) else art
  return { m with outputs :=
    { m.outputs with
        devices_served_count := sc
        devices_served_ec_count := ec
        devices_served_cc_count := cc
        servers_used_count := uec + ucc
        servers_used_ec_count := uec
        servers_used_cc_count := ucc
        cost_of_servers_used := csu
        cost_of_non_service := cns
        total_cost := m.outputs.cost_of_non_coverage + cns + csu
        average_response_time := art2 } }

/-- Embedding of `NetworkResourceAllocation::techParams` (DataGenerator.h,
lines 397-409): `{coverage radius km, data rate Mbps}`, `(-1, -1)` for an
unknown id. -/
def techParams (tech : Int) : ℚ × ℚ :=
  if tech = 1 then (20, 0.0024)
  else if tech = 2 then (10, 0.064)
  else if tech = 3 then (5, 2)
  else if tech = 4 then (3, 100)
  else if tech = 5 then (0.6, 1000)
  else if tech = 6 then (0.32, 10000)
  else (-1, -1)

/-- Applies `f` to every element except the placeholder at index 0,
modelling the C++ loops `for (size_t i = 1; i < v.size(); ++i)`. -/
def mapTail (f : α → α) : List α → List α
  | [] => []
  | x :: xs => x :: xs.map f

/-- The fixed backbone data rate `DATA_RATE_EC_TO_CC_MBPS` of
`NetworkResourceAllocation::bandwidth`. -/
def DATA_RATE_EC_TO_CC_MBPS : ℚ := 100000

/-- Embedding of `NetworkResourceAllocation::bandwidth` (DataGenerator.h,
lines 419-427): devices get the technology data rate, servers the fixed
backbone rate (indices from 1). -/
def bandwidth (devices : List Device) (servers : List Server)
    (dataRate : ℚ) : List Device × List Server :=
  (mapTail (fun d => { d with bw := dataRate }) devices,
   mapTail (fun s => { s with bw := DATA_RATE_EC_TO_CC_MBPS }) servers)

/-- The inner edge-server loop of
`NetworkResourceAllocation::findCovering` for one device: candidates
`{id := j, distance}` for every edge server within the radius, in index
order.  `dist` abstracts `utils::calculateDistance` on (lat, lon) pairs
(its trigonometric formula is outside exact rational arithmetic).
Called with `j = 1` on `servers.tail`, mirroring the loop from index 1. -/
def edgeCandidates (dist : ℚ × ℚ → ℚ × ℚ → ℚ) (d : Device) (radius : ℚ) :
    Nat → List Server → List server_covering
  | _, [] => []
  | j, s :: rest =>
      if s.type = 'E' ∧ dist (d.lat, d.lon) (s.lat, s.lon) ≤ radius then
        { id := j, distance := dist (d.lat, d.lon) (s.lat, s.lon) } ::
          edgeCandidates dist d radius (j + 1) rest
      else edgeCandidates dist d radius (j + 1) rest

/-- The cloud-server loop of `NetworkResourceAllocation::findCovering` for
one covered device: a candidate `{id := j}` for every cloud server. -/
def cloudCandidates : Nat → List Server → List server_covering
  | _, [] => []
  | j, s :: rest =>
      if s.type = 'C' then { id := j } :: cloudCandidates (j + 1) rest
      else cloudCandidates (j + 1) rest

/-- The per-device body of `NetworkResourceAllocation::findCovering`
(DataGenerator.h, lines 443-473): append the in-radius edge candidates,
mark covered, and for a covered device append every cloud candidate. -/
def coverDevice (dist : ℚ × ℚ → ℚ × ℚ → ℚ) (servers : List Server)
    (radius : ℚ) (d : Device) : Device :=
  let ecands := edgeCandidates dist d radius 1 servers.tail
  let d1 := { d with
    servers := d.servers ++ ecands
    covered := d.covered || !ecands.isEmpty }
  if d1.covered then
    { d1 with servers := d1.servers ++ cloudCandidates 1 servers.tail }
  else d1

/-- Embedding of `NetworkResourceAllocation::findCovering` (DataGenerator.h,
lines 443-473).  Returns (covered-device id list, updated devices, updated
metrics); the servers are only read.  Each uncovered device adds its
`cnd` to `cost_of_non_coverage`, and `devices_covered_count` is set to
the length of the covered list. -/
def findCovering (dist : ℚ × ℚ → ℚ × ℚ → ℚ) (devices : List Device)
    (servers : List Server) (radius : ℚ) (m : Metrics) :
    List Nat × List Device × Metrics :=
  let processed := mapTail (coverDevice dist servers radius) devices
  let coveredIds := processed.tail.filterMap
    (fun d => if d.covered then some d.id else none)
  let ncov := processed.tail.foldl
    (fun acc d => if d.covered then acc else acc + d.cnd)
    m.outputs.cost_of_non_coverage
  (coveredIds, processed,
   { m with outputs :=
      { m.outputs with
          cost_of_non_coverage := ncov
          devices_covered_count := coveredIds.length } })

/-- Embedding of the constant `SPEED_OF_LIGHT` (km/s). -/
def SPEED_OF_LIGHT : ℚ := 299792.458

/-- Embedding of the constant `INTER_DC_LATENCY_MS`. -/
def INTER_DC_LATENCY_MS : ℚ := 111.86

/-- Embedding of the constant `utils::EARTH_RADIUS_KM`, the initial
closest-edge distance bound in `timeCalculation`. -/
def EARTH_RADIUS_KM : ℚ := 6371.0088

/-- The closest-edge scan of `NetworkResourceAllocation::timeCalculation`:
folds over the candidate list keeping the nearest edge server;
`servers.at(s_info.id)` out of range is `none`. -/
def closestEdge (servers : List Server) :
    List server_covering → Nat × ℚ → Option (Nat × ℚ)
  | [], best => some best
  | c :: rest, best =>
      match servers.get? c.id with
      | none => none
      | some s =>
          if s.type = 'E' ∧ c.distance < best.2 then
            closestEdge servers rest (c.id, c.distance)
          else closestEdge servers rest best

/-- The per-candidate body of `NetworkResourceAllocation::timeCalculation`
(DataGenerator.h, lines 502-517): processing, transmission, connection
and response times; cloud links route over the closest edge `ce` and add
the inter-datacenter latency. -/
def timeCand (dist : ℚ × ℚ → ℚ × ℚ → ℚ) (servers : List Server)
    (device : Device) (ce : Nat × ℚ) (c : server_covering) :
    Option server_covering := do
  let server ← servers.get? c.id
  let processingTime := device.s_d * server.t_p
  let transmission := device.s_d / device.bw * 1000
  if server.type = 'C' then do
    let ceServer ← servers.get? ce.1
    let propagationDist := ce.2 +
      dist (ceServer.lat, ceServer.lon) (server.lat, server.lon)
    let ct := transmission + propagationDist / SPEED_OF_LIGHT * 1000 +
      INTER_DC_LATENCY_MS
    return { c with
      id_routing := ce.1
      connectionTime := ct
      processingTime := processingTime
      responseTime := ct + processingTime }
  else
    let ct := transmission + c.distance / SPEED_OF_LIGHT * 1000
    return { c with
      connectionTime := ct
      processingTime := processingTime
      responseTime := ct + processingTime }

/-- The per-device body of `NetworkResourceAllocation::timeCalculation`:
uncovered devices are skipped; for covered devices every candidate link
gets its timing fields. -/
def timeDevice (dist : ℚ × ℚ → ℚ × ℚ → ℚ) (servers : List Server)
    (d : Device) : Option Device :=
  if d.covered then do
    let ce ← closestEdge servers d.servers (0, EARTH_RADIUS_KM)
    let cands ← d.servers.mapM (timeCand dist servers d ce)
    return { d with servers := cands }
  else some d

/-- Embedding of `NetworkResourceAllocation::timeCalculation`
(DataGenerator.h, lines 490-519), over the devices from index 1. -/
def timeCalculation (dist : ℚ × ℚ → ℚ × ℚ → ℚ) (devices : List Device)
    (servers : List Server) : Option (List Device) :=
  match devices with
  | [] => some []
  | d0 :: rest => do
      let rest2 ← rest.mapM (timeDevice dist servers)
      return d0 :: rest2

/-- Embedding of `NetworkResourceAllocation::coverage` (DataGenerator.h,
lines 532-542).  For an invalid technology id the C++ prints an error and
returns an empty list WITHOUT touching devices, servers, or metrics and
without signalling failure to the caller; this is the `some ([], ...)`
branch. -/
def coverage (dist : ℚ × ℚ → ℚ × ℚ → ℚ) (devices : List Device)
    (servers : List Server) (m : Metrics) :
    Option (List Nat × List Device × List Server × Metrics) :=
  let techProps := techParams m.inputs.tech
  if techProps.1 < 0 then some ([], devices, servers, m)
  else do
    let (devices1, servers1) := bandwidth devices servers techProps.2
    let (coveredIds, devices2, m1) := findCovering dist devices1 servers1 techProps.1 m
    let devices3 ← timeCalculation dist devices2 servers1
    return (coveredIds, devices3, servers1, m1)

/-- Embedding of `NetworkResourceAllocation::pre_calculation`
(DataGenerator.h, lines 617-636).  `loadedDevices` / `loadedServers`
stand for the results of `loadDevices` / `loadServers` (file-backed data
loading, outside the embedding); an empty list models a load failure,
matching the code's `devices.empty() || servers.empty()` check.  The
string parameters `simulation_type` / `algorithm_name` only label output
files and are omitted. -/
def pre_calculation (dist : ℚ × ℚ → ℚ × ℚ → ℚ)
    (loadedDevices : List Device) (loadedServers : List Server)
    (numDevices numServersEC numServersCC tech : Int) : Option Result :=
  if numDevices ≤ 0 ∨ numServersEC ≤ 0 ∨ numServersCC ≤ 0 then none
  else if loadedDevices.isEmpty || loadedServers.isEmpty then none
  else do
    let m : Metrics := { inputs :=
      { devices := numDevices, servers_ec := numServersEC,
        servers_cc := numServersCC, tech := tech } }
    let (coveredIdx, devices, servers, m1) ← coverage dist loadedDevices loadedServers m
    return { devices := devices, servers := servers,
             coveredDevicesIdx := coveredIdx, metrics := m1 }

/-- One iteration of the device loop of `Heuristics::randomHeuristic`
(Heuristics.h, lines 26-40).  `ds = (d_idx, seed)`: the covered-device
index taken from the shuffled list, and the seed of the uniform draw
`randomNumber(0, servers.size())` (drawing the out-of-range sentinel
`size` rejects the device). -/
def randomStep (st : List Device × List Server) (ds : Nat × Nat) :
    Option (List Device × List Server) := do
  let (devices, servers) := st
  let (d_idx, seed) := ds
  let device ← devices.get? d_idx
  if device.servers.isEmpty then return (devices, servers)
  else
    let s_idx := randomNumber0 seed device.servers.length
    if s_idx = device.servers.length then return (devices, servers)
    else do
      let ps ← device.servers.get? s_idx
      let server ← servers.get? ps.id
      if server.canServe device then
        let (server1, device1, _) := server.addServed device
        let device2 := { device1 with server := ps }
        return (devices.set d_idx device2, servers.set ps.id server1)
      else return (devices, servers)

/-- Embedding of `Heuristics::randomHeuristic` (Heuristics.h, lines
17-46).  `order` pairs the shuffled copy of `state.coveredDevicesIdx`
(the output of `std::shuffle`) with the per-device draw seeds; the
state's own covered list is not modified (the C++ shuffles a copy). -/
def randomHeuristic (state : Result) (order : List (Nat × Nat)) :
    Option Result := do
  let (devices, servers) ← order.foldlM randomStep (state.devices, state.servers)
  let m ← calculateMetrics devices servers state.metrics
  return { state with devices := devices, servers := servers, metrics := m }

/-- The inner candidate loop of `Heuristics::greedyHeuristic` (lines
88-96): commit the device to the first candidate whose server passes
`canServe`, leave it unserved if none does. -/
def commitFirstFeasible (servers : List Server) (device : Device) :
    List server_covering → Option (Device × List Server)
  | [] => some (device, servers)
  | ps :: rest => do
      let server ← servers.get? ps.id
      if server.canServe device then
        let (server1, device1, _) := server.addServed device
        return ({ device1 with server := ps }, servers.set ps.id server1)
      else commitFirstFeasible servers device rest

/-- One iteration of the device loop of `Heuristics::greedyHeuristic`
(lines 76-97): sort the device's candidate list in place by response
time, then commit to the first feasible candidate. -/
def greedyStep (sortServersAsc : Bool) (st : List Device × List Server)
    (d_idx : Nat) : Option (List Device × List Server) := do
  let (devices, servers) := st
  let device ← devices.get? d_idx
  let device1 := { device with
    servers := sortByResponseTime sortServersAsc device.servers }
  let (device2, servers1) ← commitFirstFeasible servers device1 device1.servers
  return (devices.set d_idx device2, servers1)

/-- Embedding of `Heuristics::greedyHeuristic` (Heuristics.h, lines
63-103): sort the covered devices by `cnd` in the chosen direction (with
the deterministic index tie-break), then serve each in turn. -/
def greedyHeuristic (state : Result) (sortDevicesAsc sortServersAsc : Bool) :
    Option Result := do
  let sortedCoveredIdx ← sortEntities sortDevicesAsc state.devices state.coveredDevicesIdx
  let (devices, servers) ← sortedCoveredIdx.foldlM (greedyStep sortServersAsc)
    (state.devices, state.servers)
  let m ← calculateMetrics devices servers state.metrics
  return { state with devices := devices, servers := servers, metrics := m }

/-- The candidate loop of `MetaHeuristics::generateNeighbor` (lines
29-56): try the shuffled candidates in order, at most 5 (a skipped
current-server candidate also consumes a try); on the first feasible
candidate perform the move and update the two cost components. -/
def tryMoves (devices : List Device) (servers : List Server) (d_idx : Nat)
    (device : Device) (cns csu : ℚ) :
    List Nat → Nat → Option (List Device × List Server × ℚ × ℚ)
  | [], _ => some (devices, servers, cns, csu)
  | idxServers :: rest, tries =>
      if 5 ≤ tries then some (devices, servers, cns, csu)
      else do
        let ps ← device.servers.get? idxServers
        if ps.id = device.server.id then
          tryMoves devices servers d_idx device cns csu rest (tries + 1)
        else do
          let old_server ← servers.get? device.server.id
          let new_server ← servers.get? ps.id
          if new_server.canServe device then
            let csu1 := if new_server.on then csu else csu + new_server.csc
            if device.served then
              let (old1, device1, _) := old_server.rmvServed device
              let csu2 := if old1.on then csu1 else csu1 - old_server.csc
              let (new1, device2, _) := new_server.addServed device1
              let device3 := { device2 with server := ps }
              return (devices.set d_idx device3,
                      (servers.set device.server.id old1).set ps.id new1,
                      cns, csu2)
            else
              let (new1, device1, _) := new_server.addServed device
              let device2 := { device1 with server := ps }
              return (devices.set d_idx device2, servers.set ps.id new1,
                      cns - device.cnd, csu1)
          else tryMoves devices servers d_idx device cns csu rest (tries + 1)

/-- Embedding of `MetaHeuristics::generateNeighbor` (lines 22-57).
`pickSeed` seeds the uniform device pick, and `shuffleOrder` stands for
the output of `utils::shuffledRange(0, servers.size()-1)` (a permutation
of that range).  With an empty covered list the C++ calls
`randomNumber(0, -1)` which throws (`none`); a chosen device with an
empty candidate list makes `shuffledRange(0, -1)` throw (`none`). -/
def generateNeighbor (devices : List Device) (servers : List Server)
    (coveredDevicesIdx : List Nat) (pickSeed : Nat) (shuffleOrder : List Nat)
    (cns csu : ℚ) : Option (List Device × List Server × ℚ × ℚ) :=
  if coveredDevicesIdx.isEmpty then none
  else do
    let idx := randomNumber0 pickSeed (coveredDevicesIdx.length - 1)
    let d_idx ← coveredDevicesIdx.get? idx
    let device ← devices.get? d_idx
    if device.servers.isEmpty then none
    else tryMoves devices servers d_idx device cns csu shuffleOrder 0

/-- The randomness consumed by one inner iteration of
`simulatedAnnealing`: the device-pick seed and candidate shuffle of
`generateNeighbor`, and the outcome of the Metropolis test
`randomNumber(0.0, 1.0) < exp(-delta / T)` (a Bernoulli draw, modelled
as an explicit Boolean since `exp` is transcendental). -/
structure SARand where
  pickSeed : Nat := 0
  shuffleOrder : List Nat := []
  accept : Bool := false

/-- The local state of `MetaHeuristics::simulatedAnnealing`: the current
and best solutions with their two cost components and totals. -/
structure SAState where
  currentDevices : List Device
  currentServers : List Server
  bestDevices : List Device
  bestServers : List Server
  currentCNS : ℚ
  currentCSU : ℚ
  currentCost : ℚ
  bestCNS : ℚ
  bestCSU : ℚ
  bestCost : ℚ
deriving DecidableEq

/-- One body of the inner loop of `simulatedAnnealing` (lines 88-122):
generate a neighbor from copies of the current solution, always accept an
improving move (updating best when it beats `bestCost`), otherwise accept
with the Metropolis probability.  The returned flag is `delta < 0` (the
C++ resets the inner counter on it). -/
def saIteration (coveredDevicesIdx : List Nat) (r : SARand) (st : SAState) :
    Option (SAState × Bool) := do
  let (nD, nS, nCNS, nCSU) ← generateNeighbor st.currentDevices
    st.currentServers coveredDevicesIdx r.pickSeed r.shuffleOrder
    st.currentCNS st.currentCSU
  let neighborCost := nCNS + nCSU
  let delta := neighborCost - st.currentCost
  if delta < 0 then
    let st1 := { st with
      currentCNS := nCNS, currentCSU := nCSU, currentCost := neighborCost,
      currentDevices := nD, currentServers := nS }
    if neighborCost < st.bestCost then
      return ({ st1 with
        bestCNS := nCNS, bestCSU := nCSU, bestCost := neighborCost,
        bestDevices := nD, bestServers := nS }, true)
    else return (st1, true)
  else if r.accept then
    return ({ st with
      currentCNS := nCNS, currentCSU := nCSU, currentCost := neighborCost,
      currentDevices := nD, currentServers := nS }, false)
  else return (st, false)

/-- The inner loop `for (int i = 0; i < 10; ++i)` of `simulatedAnnealing`
with its reset `i = 0` on an improving accept (so the counter continues
from 1 after the `++i`).  `k` indexes the randomness stream across the
whole run; `fuel` bounds the number of iterations (an improving streak
keeps the loop alive indefinitely in the C++, so the loop is not
structurally bounded), `none` meaning the fuel ran out before the loop
exited. -/
def saInner (coveredDevicesIdx : List Nat) (rnd : Nat → SARand) :
    Nat → Nat → Nat → SAState → Option (SAState × Nat)
  | k, i, fuel, st =>
    if 10 ≤ i then some (st, k)
    else
      match fuel with
      | 0 => none
      | fuel' + 1 => do
          let (st1, improved) ← saIteration coveredDevicesIdx (rnd k) st
          saInner coveredDevicesIdx rnd (k + 1) (if improved then 1 else i + 1)
            fuel' st1

/-- The cooling loop `while (T > 1e-3) { ...; T *= alpha; }` of
`simulatedAnnealing`.  `fuelO` bounds the number of temperature levels
(the loop terminates for `0 < alpha < 1` but is given fuel rather than a
termination argument). -/
def saOuter (coveredDevicesIdx : List Nat) (rnd : Nat → SARand) (alpha : ℚ) :
    Nat → ℚ → Nat → Nat → SAState → Option (SAState × Nat)
  | k, T, fuelO, fuelI, st =>
    if T ≤ 1 / 1000 then some (st, k)
    else
      match fuelO with
      | 0 => none
      | fo + 1 => do
          let (st1, k1) ← saInner coveredDevicesIdx rnd k 0 fuelI st
          saOuter coveredDevicesIdx rnd alpha k1 (T * alpha) fo fuelI st1

/-- Embedding of `MetaHeuristics::simulatedAnnealing` (lines 75-129).
The returned `Result` is the C++ `state` after the call: its metrics are
recomputed by `calculateMetrics(bestDevices, bestServers, *state.metrics)`
while its `devices` / `servers` fields are never written by the function.
The final internal `SAState` (current and best solutions) is returned
alongside for verification. -/
def simulatedAnnealing (state : Result) (T alpha : ℚ) (rnd : Nat → SARand)
    (fuelO fuelI : Nat) : Option (Result × SAState) := do
  let bestCNS := state.metrics.outputs.cost_of_non_service
  let bestCSU := state.metrics.outputs.cost_of_servers_used
  let st0 : SAState :=
    { currentDevices := state.devices, currentServers := state.servers,
      bestDevices := state.devices, bestServers := state.servers,
      currentCNS := bestCNS, currentCSU := bestCSU,
      currentCost := bestCNS + bestCSU,
      bestCNS := bestCNS, bestCSU := bestCSU, bestCost := bestCNS + bestCSU }
  let (stF, _) ← saOuter state.coveredDevicesIdx rnd alpha 0 T fuelO fuelI st0
  let m ← calculateMetrics stF.bestDevices stF.bestServers state.metrics
  return ({ state with metrics := m }, stF)

/-- The capacity invariant of the spec: in each of the five resource
dimensions checked by `Server::canServe`, the accumulated demand is at
most the server's fixed capacity. -/
def capOK (s : Server) : Prop :=
  s.supply.pccD ≤ s.pcc_total ∧ s.supply.pcnD ≤ s.pcn ∧
  s.supply.memD ≤ s.mem ∧ s.supply.stoD ≤ s.sto ∧ s.supply.bwD ≤ s.bw

instance (s : Server) : Decidable (capOK s) := by unfold capOK; infer_instance

/-- The activation invariant of the spec: the `on` flag holds iff the
served-device set is non-empty. -/
def onIffServed (s : Server) : Prop :=
  s.on = true ↔ s.supply.devices_served ≠ ∅

instance (s : Server) : Decidable (onIffServed s) := by
  unfold onIffServed; infer_instance

/-- Non-negativity of a device's five resource demands (true of all
loaded data; needed so that releasing a device can only lower the
accumulated demand). -/
def nonnegDemand (d : Device) : Prop :=
  0 ≤ d.pcc ∧ 0 ≤ d.pcn ∧ 0 ≤ d.mem ∧ 0 ≤ d.sto ∧ 0 ≤ d.bw

instance (d : Device) : Decidable (nonnegDemand d) := by
  unfold nonnegDemand; infer_instance

/-- Well-formedness of one covered device relative to the server vector:
a non-empty candidate list, all candidate ids in range, and an in-range
committed-link id (id 0 is the placeholder server). -/
def wfDevice (servers : List Server) (d : Device) : Prop :=
  d.servers ≠ [] ∧ (∀ c ∈ d.servers, c.id < servers.length) ∧
  d.server.id < servers.length

instance (servers : List Server) (d : Device) : Decidable (wfDevice servers d) := by
  unfold wfDevice; infer_instance

/-- Well-formedness of a covered-device index list: every index is in
range and the device there is well formed. -/
def wfCovered (devices : List Device) (servers : List Server)
    (covered : List Nat) : Prop :=
  ∀ i ∈ covered, i < devices.length ∧ wfDevice servers (devices.getD i {})

instance (devices : List Device) (servers : List Server) (covered : List Nat) :
    Decidable (wfCovered devices servers covered) := by
  unfold wfCovered; infer_instance

/-- The device fields that no allocation strategy may touch: everything
except the dynamic `served` flag, the committed link `server`, and the
candidate list `servers`. -/
def sameStatic (a b : Device) : Prop :=
  a.id = b.id ∧ a.pcn = b.pcn ∧ a.svc = b.svc ∧ a.lat = b.lat ∧
  a.lon = b.lon ∧ a.cnd = b.cnd ∧ a.pcc = b.pcc ∧ a.mem = b.mem ∧
  a.sto = b.sto ∧ a.s_d = b.s_d ∧ a.bw = b.bw ∧ a.covered = b.covered

/-- Device frame for the random heuristic and the neighbor step: static
fields unchanged and the candidate list exactly unchanged. -/
def frameEq (a b : Device) : Prop := sameStatic a b ∧ a.servers = b.servers

/-- Device frame for the greedy heuristic: static fields unchanged and
the candidate list unchanged up to order (its in-place sort). -/
def framePerm (a b : Device) : Prop := sameStatic a b ∧ a.servers.Perm b.servers

/-- The server fields that no allocation strategy may touch: everything
except the `on` flag and the demand accumulator `supply`. -/
def sameStaticServer (a b : Server) : Prop :=
  a.id = b.id ∧ a.pcn = b.pcn ∧ a.type = b.type ∧ a.lat = b.lat ∧
  a.lon = b.lon ∧ a.csc = b.csc ∧ a.pcc_per_core = b.pcc_per_core ∧
  a.pcc_total = b.pcc_total ∧ a.mem = b.mem ∧ a.sto = b.sto ∧
  a.t_p = b.t_p ∧ a.bw = b.bw

/-- A dummy distance function for concrete instances: the absolute
latitude difference (the claims below never depend on the geographic
formula itself, which is abstracted as a parameter throughout). -/
def exDist : ℚ × ℚ → ℚ × ℚ → ℚ := fun p q => |p.1 - q.1|

/-- Concrete candidate link: the edge server with id 1. -/
def exCand1 : server_covering := { id := 1, responseTime := 5 }

/-- Concrete covered device with small demands, non-service cost 10, one
candidate (the edge server 1). -/
def exDev1 : Device :=
  { id := 1, pcn := 1, cnd := 10, pcc := 1, mem := 1, sto := 1, bw := 1,
    covered := true, servers := [exCand1] }

/-- Concrete edge server with ample capacity and activation cost 1. -/
def exSrvE : Server :=
  { id := 1, pcn := 10, type := 'E', csc := 1, pcc_total := 10,
    mem := 10, sto := 10, bw := 10 }

/-- Concrete one-device one-server run state (placeholders at index 0):
the device is covered and unserved, so `cost_of_non_service` is 10. -/
def exState : Result :=
  { devices := [{}, exDev1], servers := [{}, exSrvE],
    coveredDevicesIdx := [1],
    metrics := { outputs :=
      { cost_of_non_service := 10, devices_covered_count := 1 } } }

/-- Randomness stream for the concrete simulated-annealing runs: always
pick the first covered device, try candidate 0 first, reject on the
Metropolis test. -/
def exRnd : Nat → SARand := fun _ => { pickSeed := 0, shuffleOrder := [0], accept := false }

/-- Candidate list of the C4 counterexample device: response times out of
ascending order, so greedy's in-place sort reorders the list. -/
def c4CandA : server_covering := { id := 1, responseTime := 7 }

/-- Second candidate of the C4 counterexample device. -/
def c4CandB : server_covering := { id := 2, responseTime := 3 }

/-- C4 counterexample device: two candidates stored with descending
response times. -/
def c4Dev : Device :=
  { id := 1, pcn := 1, cnd := 10, pcc := 1, mem := 1, sto := 1, bw := 1,
    covered := true, servers := [c4CandA, c4CandB] }

/-- Second edge server for the C4 counterexample. -/
def c4SrvE2 : Server :=
  { id := 2, pcn := 10, type := 'E', csc := 1, pcc_total := 10,
    mem := 10, sto := 10, bw := 10 }

/-- C4 counterexample run state. -/
def c4State : Result :=
  { devices := [{}, c4Dev], servers := [{}, exSrvE, c4SrvE2],
    coveredDevicesIdx := [1],
    metrics := { outputs :=
      { cost_of_non_service := 10, devices_covered_count := 1 } } }

/-- C8 witness device at latitude 0.1: 2.9 km from the edge server below
under `exDist`. -/
def c8DevNear : Device := { id := 1, cnd := 4, lat := 0.1 }

/-- C8 witness device at latitude -0.1: 3.1 km from the edge server below
under `exDist`. -/
def c8DevFar : Device := { id := 2, cnd := 7, lat := -0.1 }

/-- C8 witness edge server at latitude 3. -/
def c8SrvE : Server := { id := 1, type := 'E', lat := 3 }

/-- C8 witness cloud server. -/
def c8SrvC : Server := { id := 2, type := 'C', lat := 50 }

/-- All devices of a list have non-negative demands. -/
def devsOK (l : List Device) : Prop := ∀ d ∈ l, nonnegDemand d

instance (l : List Device) : Decidable (devsOK l) := by unfold devsOK; infer_instance

/-- All servers of a list satisfy the capacity invariant. -/
def srvsCap (l : List Server) : Prop := ∀ s ∈ l, capOK s

instance (l : List Server) : Decidable (srvsCap l) := by unfold srvsCap; infer_instance

/-- All servers of a list satisfy the activation invariant. -/
def srvsOn (l : List Server) : Prop := ∀ s ∈ l, onIffServed s

instance (l : List Server) : Decidable (srvsOn l) := by unfold srvsOn; infer_instance

/-- Every served device's committed-link id is in range (needed by the
`servers.at(device.server.id)` access in `calculateMetrics`). -/
def servedLinksOK (devices : List Device) (servers : List Server) : Prop :=
  ∀ d ∈ devices, d.served = true → d.server.id < servers.length

instance (devices : List Device) (servers : List Server) :
    Decidable (servedLinksOK devices servers) := by
  unfold servedLinksOK; infer_instance

/-- Two equal-`cnd` devices (indices 1 and 2) for the C7 witness. -/
def c7Ents : List Device := [{}, { cnd := 5 }, { cnd := 5 }]

/-- The initial `SAState` built by `simulatedAnnealing` from `exState`. -/
def exSA0 : SAState :=
  { currentDevices := exState.devices, currentServers := exState.servers,
    bestDevices := exState.devices, bestServers := exState.servers,
    currentCNS := 10, currentCSU := 0, currentCost := 10,
    bestCNS := 10, bestCSU := 0, bestCost := 10 }

/-- The result of one improving SA iteration on `exSA0`. -/
def c6Out : SAState × Bool := (saIteration [1] (exRnd 0) exSA0).getD (exSA0, false)

/-- The state produced by the random heuristic on the concrete instance
(the device is offered candidate 0 and served). -/
def c1RandomOut : Result := (randomHeuristic exState [(1, 0)]).getD exState

/-- The state produced by the greedy heuristic on the concrete instance. -/
def c1GreedyOut : Result := (greedyHeuristic exState true true).getD exState

/-- The state and final internal solutions of the concrete simulated
annealing run on `exState`. -/
def c1SAOut : Result × SAState :=
  (simulatedAnnealing exState (1 / 100) (1 / 100) exRnd 2 12).getD (exState, exSA0)

/-- Random-heuristic output on the C4 state. -/
def c4RandomOut : Result := (randomHeuristic c4State [(1, 0)]).getD c4State

/-- Greedy-heuristic output on the C4 state (its in-place candidate sort
reorders the device's list). -/
def c4GreedyOut : Result := (greedyHeuristic c4State true true).getD c4State

/-- Neighbor-step output on the C4 state. -/
def c4NeighborOut : List Device × List Server × ℚ × ℚ :=
  (generateNeighbor c4State.devices c4State.servers [1] 0 [0, 1] 10 0).getD
    (c4State.devices, c4State.servers, 10, 0)

/-- Devices of the C8 witness instance: placeholder, a device 2.9 away
from the edge server under `exDist`, and one 3.1 away. -/
def c8Devices : List Device := [{}, c8DevNear, c8DevFar]

/-- Servers of the C8 witness instance: placeholder, one edge, one cloud. -/
def c8Servers : List Server := [{}, c8SrvE, c8SrvC]

/-- Output of `pre_calculation` on the C8 instance with technology 4
(radius 3 km). -/
def c3Out : Result :=
  (pre_calculation exDist c8Devices c8Servers 2 1 1 4).getD exState

/-- An `Option`-valued left fold preserves any invariant its step
preserves. -/
theorem foldlM_option_preserves {σ α : Type _} {f : σ → α → Option σ}
    {P : σ → Prop} (hf : ∀ s a s', P s → f s a = some s' → P s') :
    ∀ (l : List α) (s s' : σ), P s → List.foldlM f s l = some s' → P s'
  | [], s, s', hs, h => by
      simp only [List.foldlM_nil, Option.pure_def, Option.some.injEq] at h
      exact h ▸ hs
  | a :: l, s, s', hs, h => by
      rw [List.foldlM_cons] at h
      cases hfa : f s a with
      | none => rw [hfa] at h; simp at h
      | some s1 =>
          rw [hfa] at h
          simp only [Option.bind_eq_bind, Option.some_bind] at h
          exact foldlM_option_preserves hf l s1 s' (hf s a s1 hs hfa) h

/-- An `Option`-valued left fold succeeds when every step succeeds from an
invariant state on an admissible element, and the invariant is carried. -/
theorem foldlM_option_total {σ α : Type _} {f : σ → α → Option σ}
    {P : σ → Prop} {Q : α → Prop}
    (hf : ∀ s a, P s → Q a → ∃ s', f s a = some s' ∧ P s') :
    ∀ (l : List α) (s : σ), P s → (∀ a ∈ l, Q a) →
      ∃ s', List.foldlM f s l = some s' ∧ P s'
  | [], s, hs, _ => ⟨s, by simp, hs⟩
  | a :: l, s, hs, hq => by
      obtain ⟨s1, hfa, hs1⟩ := hf s a hs (hq a (List.mem_cons_self a l))
      obtain ⟨s', hrest, hs'⟩ :=
        foldlM_option_total hf l s1 hs1 (fun x hx => hq x (List.mem_cons_of_mem a hx))
      exact ⟨s', by rw [List.foldlM_cons, hfa]; simpa using hrest, hs'⟩

/-- Updating one element to one that satisfies `P` keeps a pointwise
property `P` of a list. -/
theorem mem_set_preserves {α} {P : α → Prop} {l : List α} (hl : ∀ x ∈ l, P x)
    {a : α} (ha : P a) (i : Nat) : ∀ x ∈ l.set i a, P x := by
  intro x hx
  rcases List.mem_or_eq_of_mem_set hx with h | h
  · exact hl x h
  · exact h ▸ ha

/-- `Forall₂` composes along a transitive-style composition of two
relations. -/
theorem forall2_comp {α} {R S T : α → α → Prop}
    (hcomp : ∀ a b c, R a b → S b c → T a c) :
    ∀ {l1 l2 l3 : List α}, List.Forall₂ R l1 l2 → List.Forall₂ S l2 l3 →
      List.Forall₂ T l1 l3 := by
  intro l1 l2 l3 h1
  induction h1 generalizing l3 with
  | nil => intro h2; cases h2; exact List.Forall₂.nil
  | cons hab hrest ih =>
      intro h2
      cases h2 with
      | cons hbc hrest2 => exact List.Forall₂.cons (hcomp _ _ _ hab hbc) (ih hrest2)

/-- Reading through a `Forall₂` from the right list to the left one. -/
theorem forall2_get_left {α β} {R : α → β → Prop} :
    ∀ {l1 : List α} {l2 : List β}, List.Forall₂ R l1 l2 →
      ∀ {i : Nat} {x : β}, l2.get? i = some x → ∃ y, l1.get? i = some y ∧ R y x := by
  intro l1 l2 h
  induction h with
  | nil => intro i x hx; simp at hx
  | cons hab hrest ih =>
      intro i x hx
      cases i with
      | zero => simp only [List.get?_cons_zero, Option.some.injEq] at hx
                exact ⟨_, rfl, hx ▸ hab⟩
      | succ n => simp only [List.get?_cons_succ] at hx ⊢; exact ih hx

/-- Updating position `i` of the right list by an element related to the
old one keeps a `Forall₂`. -/
theorem forall2_set {α β} {R : α → β → Prop} :
    ∀ {l1 : List α} {l2 : List β}, List.Forall₂ R l1 l2 →
      ∀ {i : Nat} {x y : β}, l2.get? i = some x → (∀ a, R a x → R a y) →
        List.Forall₂ R l1 (l2.set i y) := by
  intro l1 l2 h
  induction h with
  | nil => intro i x y hx _; simp at hx
  | cons hab hrest ih =>
      intro i x y hx himp
      cases i with
      | zero =>
          simp only [List.get?_cons_zero, Option.some.injEq] at hx
          exact List.Forall₂.cons (himp _ (hx ▸ hab)) hrest
      | succ n =>
          simp only [List.get?_cons_succ] at hx
          exact List.Forall₂.cons hab (ih hx himp)

/-- `addServed` preserves the capacity invariant when guarded by
`canServe`, exactly the call pattern of all three strategies. -/
theorem capOK_addServed {s : Server} {d : Device} (hs : capOK s)
    (h : s.canServe d = true) : capOK (s.addServed d).1 := by
  unfold Server.canServe at h
  simp only [Bool.and_eq_true, decide_eq_true_eq] at h
  unfold Server.addServed
  split
  · exact hs
  · exact ⟨h.1.1.1.1, h.1.1.1.2, h.1.1.2, h.1.2, h.2⟩

/-- `rmvServed` preserves the capacity invariant for a device with
non-negative demands: releasing only lowers the accumulated demand. -/
theorem capOK_rmvServed {s : Server} {d : Device} (hs : capOK s)
    (hd : nonnegDemand d) : capOK (s.rmvServed d).1 := by
  obtain ⟨h1, h2, h3, h4, h5⟩ := hs
  obtain ⟨n1, n2, n3, n4, n5⟩ := hd
  unfold Server.rmvServed
  split
  · exact ⟨h1, h2, h3, h4, h5⟩
  · refine ⟨by simpa using by linarith, ?_, by simpa using by linarith,
      by simpa using by linarith, by simpa using by linarith⟩
    simp only
    omega

/-- `addServed` preserves the activation invariant: on success the set
becomes non-empty and `on` is set; on failure nothing changes. -/
theorem onIff_addServed {s : Server} {d : Device} (hs : onIffServed s) :
    onIffServed (s.addServed d).1 := by
  unfold Server.addServed
  split
  · exact hs
  · unfold onIffServed
    simp [Finset.insert_ne_empty]

/-- `rmvServed` preserves the activation invariant: `on` is cleared iff
the served set becomes empty. -/
theorem onIff_rmvServed {s : Server} {d : Device} (hs : onIffServed s) :
    onIffServed (s.rmvServed d).1 := by
  unfold Server.rmvServed
  split
  · exact hs
  · rename_i hmem
    rw [not_not] at hmem
    unfold onIffServed at hs ⊢
    by_cases he : s.supply.devices_served.erase d.id = ∅
    · simp [he]
    · have hne : s.supply.devices_served ≠ ∅ := by
        intro h0
        rw [h0] at hmem
        simp at hmem
      simp [he, hs.mpr hne]


/-- C9: committing then releasing a device not currently in the server's
served set restores the demand accumulator (all five resource sums, the
cost sum and the served set) exactly, clears the device's `served` flag,
and a release of an unserved device returns `false` and changes nothing.
(Exactness is exact rational arithmetic, the ideal-arithmetic reading of
the spec's floating-point tolerance.) -/
theorem c9_commit_release_roundtrip (s : Server) (d : Device)
    (h : d.id ∉ s.supply.devices_served) :
    (s.addServed d).2.2 = true ∧
    ((s.addServed d).1.rmvServed (s.addServed d).2.1).2.2 = true ∧
    ((s.addServed d).1.rmvServed (s.addServed d).2.1).1.supply = s.supply ∧
    ((s.addServed d).1.rmvServed (s.addServed d).2.1).2.1.served = false ∧
    s.rmvServed d = (s, d, false) := by
  refine ⟨?_, ?_, ?_, ?_, ?_⟩
  · simp [Server.addServed, h]
  · simp [Server.addServed, Server.rmvServed, h]
  · simp [Server.addServed, Server.rmvServed, h, Finset.erase_insert h,
      add_sub_cancel_right]
  · simp [Server.addServed, Server.rmvServed, h]
  · simp [Server.rmvServed, h]

/-- C9 witness: the round trip evaluated on the concrete server and
device of the running example. -/
theorem c9_commit_release_roundtrip_witness :
    exDev1.id ∉ exSrvE.supply.devices_served ∧
    ((exSrvE.addServed exDev1).1.rmvServed (exSrvE.addServed exDev1).2.1).1.supply =
      exSrvE.supply ∧
    exSrvE.rmvServed exDev1 = (exSrvE, exDev1, false) :=
  ⟨by decide,
   (c9_commit_release_roundtrip exSrvE exDev1 (by decide)).2.2.1,
   (c9_commit_release_roundtrip exSrvE exDev1 (by decide)).2.2.2.2⟩

theorem sameStatic_refl (d : Device) : sameStatic d d :=
  ⟨rfl, rfl, rfl, rfl, rfl, rfl, rfl, rfl, rfl, rfl, rfl, rfl⟩

theorem sameStatic_trans {a b c : Device} (h1 : sameStatic a b)
    (h2 : sameStatic b c) : sameStatic a c := by
  obtain ⟨e1, e2, e3, e4, e5, e6, e7, e8, e9, e10, e11, e12⟩ := h1
  obtain ⟨f1, f2, f3, f4, f5, f6, f7, f8, f9, f10, f11, f12⟩ := h2
  exact ⟨e1.trans f1, e2.trans f2, e3.trans f3, e4.trans f4, e5.trans f5,
    e6.trans f6, e7.trans f7, e8.trans f8, e9.trans f9, e10.trans f10,
    e11.trans f11, e12.trans f12⟩

theorem frameEq_refl (d : Device) : frameEq d d := ⟨sameStatic_refl d, rfl⟩

theorem frameEq_trans {a b c : Device} (h1 : frameEq a b) (h2 : frameEq b c) :
    frameEq a c := ⟨sameStatic_trans h1.1 h2.1, h1.2.trans h2.2⟩

theorem framePerm_trans {a b c : Device} (h1 : framePerm a b) (h2 : framePerm b c) :
    framePerm a c := ⟨sameStatic_trans h1.1 h2.1, h1.2.trans h2.2⟩

theorem framePerm_of_frameEq {a b : Device} (h : frameEq a b) : framePerm a b :=
  ⟨h.1, h.2 ▸ List.Perm.refl _⟩

theorem sameStaticServer_refl (s : Server) : sameStaticServer s s :=
  ⟨rfl, rfl, rfl, rfl, rfl, rfl, rfl, rfl, rfl, rfl, rfl, rfl⟩

theorem sameStaticServer_trans {a b c : Server} (h1 : sameStaticServer a b)
    (h2 : sameStaticServer b c) : sameStaticServer a c := by
  obtain ⟨e1, e2, e3, e4, e5, e6, e7, e8, e9, e10, e11, e12⟩ := h1
  obtain ⟨f1, f2, f3, f4, f5, f6, f7, f8, f9, f10, f11, f12⟩ := h2
  exact ⟨e1.trans f1, e2.trans f2, e3.trans f3, e4.trans f4, e5.trans f5,
    e6.trans f6, e7.trans f7, e8.trans f8, e9.trans f9, e10.trans f10,
    e11.trans f11, e12.trans f12⟩

theorem forall2_refl_of_refl {α} {R : α → α → Prop} (hR : ∀ a, R a a) :
    ∀ l : List α, List.Forall₂ R l l
  | [] => List.Forall₂.nil
  | a :: l => List.Forall₂.cons (hR a) (forall2_refl_of_refl hR l)

/-- The device returned by `addServed` differs from the input only in its
`served` flag. -/
theorem addServed_device_frame (s : Server) (d : Device) :
    frameEq d (s.addServed d).2.1 := by
  unfold Server.addServed
  split
  · exact frameEq_refl d
  · exact ⟨⟨rfl, rfl, rfl, rfl, rfl, rfl, rfl, rfl, rfl, rfl, rfl, rfl⟩, rfl⟩

/-- The device returned by `rmvServed` differs from the input only in its
`served` flag. -/
theorem rmvServed_device_frame (s : Server) (d : Device) :
    frameEq d (s.rmvServed d).2.1 := by
  unfold Server.rmvServed
  split
  · exact frameEq_refl d
  · exact ⟨⟨rfl, rfl, rfl, rfl, rfl, rfl, rfl, rfl, rfl, rfl, rfl, rfl⟩, rfl⟩

/-- `addServed` touches only the `on` flag and the supply of the server. -/
theorem addServed_server_frame (s : Server) (d : Device) :
    sameStaticServer s (s.addServed d).1 := by
  unfold Server.addServed
  split
  · exact sameStaticServer_refl s
  · exact ⟨rfl, rfl, rfl, rfl, rfl, rfl, rfl, rfl, rfl, rfl, rfl, rfl⟩

/-- `rmvServed` touches only the `on` flag and the supply of the server. -/
theorem rmvServed_server_frame (s : Server) (d : Device) :
    sameStaticServer s (s.rmvServed d).1 := by
  unfold Server.rmvServed
  split
  · exact sameStaticServer_refl s
  · exact ⟨rfl, rfl, rfl, rfl, rfl, rfl, rfl, rfl, rfl, rfl, rfl, rfl⟩

/-- `addServed` does not change the demand fields of the device, so
non-negativity is kept. -/
theorem nonneg_addServed_device {s : Server} {d : Device}
    (h : nonnegDemand d) : nonnegDemand (s.addServed d).2.1 := by
  unfold Server.addServed
  split
  · exact h
  · exact h

/-- `canServe` only reads the demand fields, so it is unchanged on any
record update of `served` or `server`. -/
theorem canServe_update (s : Server) (d : Device) (b : Bool) (x : server_covering) :
    s.canServe { d with served := b, server := x } = s.canServe d := rfl

/-- Full characterisation of one random-heuristic step needed by the
invariant, frame and activation claims. -/
theorem randomStep_spec {devices : List Device} {servers : List Server}
    {d_idx seed : Nat} {out : List Device × List Server}
    (h : randomStep (devices, servers) (d_idx, seed) = some out) :
    List.Forall₂ frameEq devices out.1 ∧
    List.Forall₂ sameStaticServer servers out.2 ∧
    (devsOK devices → srvsCap servers → srvsCap out.2) ∧
    (srvsOn servers → srvsOn out.2) := by
  have triv : ∀ (o : List Device × List Server), (devices, servers) = o →
      List.Forall₂ frameEq devices o.1 ∧
      List.Forall₂ sameStaticServer servers o.2 ∧
      (devsOK devices → srvsCap servers → srvsCap o.2) ∧
      (srvsOn servers → srvsOn o.2) := by
    rintro o rfl
    exact ⟨forall2_refl_of_refl frameEq_refl _,
      forall2_refl_of_refl sameStaticServer_refl _,
      fun _ hc => hc, fun ho => ho⟩
  unfold randomStep at h
  simp only [] at h
  cases hget : devices.get? d_idx with
  | none => rw [hget] at h; simp at h
  | some device =>
    rw [hget] at h
    simp only [Option.bind_eq_bind, Option.some_bind] at h
    split at h
    · simp only [Option.pure_def, Option.some.injEq] at h
      exact triv out h
    · split at h
      · simp only [Option.pure_def, Option.some.injEq] at h
        exact triv out h
      · cases hps : device.servers.get? (randomNumber0 seed device.servers.length) with
        | none => rw [hps] at h; simp at h
        | some ps =>
          rw [hps] at h
          simp only [Option.bind_eq_bind, Option.some_bind] at h
          cases hsrv : servers.get? ps.id with
          | none => rw [hsrv] at h; simp at h
          | some server =>
            rw [hsrv] at h
            simp only [Option.bind_eq_bind, Option.some_bind] at h
            split at h
            · rename_i hcan
              cases haddeq : server.addServed device with
              | mk server1 rest =>
                obtain ⟨device1, flag⟩ := rest
                rw [haddeq] at h
                simp only [Option.pure_def, Option.some.injEq] at h
                subst h
                have hdevframe : frameEq device ({ device1 with server := ps }) := by
                  have h1 := addServed_device_frame server device
                  rw [haddeq] at h1
                  exact frameEq_trans h1 ⟨sameStatic_refl _, rfl⟩
                have hsrvframe : sameStaticServer server server1 := by
                  have h1 := addServed_server_frame server device
                  rw [haddeq] at h1
                  exact h1
                refine ⟨?_, ?_, ?_, ?_⟩
                · exact forall2_set (forall2_refl_of_refl frameEq_refl _) hget
                    (fun a ha => frameEq_trans ha hdevframe)
                · exact forall2_set (forall2_refl_of_refl sameStaticServer_refl _)
                    hsrv (fun a ha => sameStaticServer_trans ha hsrvframe)
                · intro _ hc
                  have hcap : capOK server1 := by
                    have h1 := capOK_addServed (hc _ (List.get?_mem hsrv)) hcan
                    rw [haddeq] at h1
                    exact h1
                  exact mem_set_preserves hc hcap _
                · intro ho
                  have hon : onIffServed server1 := by
                    have h1 := onIff_addServed (d := device) (ho _ (List.get?_mem hsrv))
                    rw [haddeq] at h1
                    exact h1
                  exact mem_set_preserves ho hon _
            · simp only [Option.pure_def, Option.some.injEq] at h
              exact triv out h

/-- Full characterisation of the greedy commit loop. -/
theorem commitFirstFeasible_spec {servers : List Server} {device : Device} :
    ∀ {cands : List server_covering} {device' : Device} {servers' : List Server},
      commitFirstFeasible servers device cands = some (device', servers') →
      frameEq device device' ∧
      List.Forall₂ sameStaticServer servers servers' ∧
      (srvsCap servers → srvsCap servers') ∧
      (srvsOn servers → srvsOn servers')
  | [], device', servers', h => by
      simp only [commitFirstFeasible, Option.pure_def, Option.some.injEq,
        Prod.mk.injEq] at h
      obtain ⟨h1, h2⟩ := h
      subst h1; subst h2
      exact ⟨frameEq_refl device, forall2_refl_of_refl sameStaticServer_refl _,
        fun hc => hc, fun ho => ho⟩
  | ps :: rest, device', servers', h => by
      simp only [commitFirstFeasible, Option.bind_eq_bind] at h
      cases hsrv : servers.get? ps.id with
      | none => rw [hsrv] at h; simp at h
      | some server =>
          rw [hsrv] at h
          simp only [Option.some_bind] at h
          split at h
          · rename_i hcan
            cases haddeq : server.addServed device with
            | mk server1 rest2 =>
              obtain ⟨device1, flag⟩ := rest2
              rw [haddeq] at h
              simp only [Option.pure_def, Option.some.injEq, Prod.mk.injEq] at h
              obtain ⟨h1, h2⟩ := h
              subst h1; subst h2
              have hdevframe : frameEq device ({ device1 with server := ps }) := by
                have h1 := addServed_device_frame server device
                rw [haddeq] at h1
                exact frameEq_trans h1 ⟨sameStatic_refl _, rfl⟩
              have hsrvframe : sameStaticServer server server1 := by
                have h1 := addServed_server_frame server device
                rw [haddeq] at h1
                exact h1
              refine ⟨hdevframe, ?_, ?_, ?_⟩
              · exact forall2_set (forall2_refl_of_refl sameStaticServer_refl _)
                  hsrv (fun a ha => sameStaticServer_trans ha hsrvframe)
              · intro hc
                have hcap : capOK server1 := by
                  have h1 := capOK_addServed (hc _ (List.get?_mem hsrv)) hcan
                  rw [haddeq] at h1
                  exact h1
                exact mem_set_preserves hc hcap _
              · intro ho
                have hon : onIffServed server1 := by
                  have h1 := onIff_addServed (d := device) (ho _ (List.get?_mem hsrv))
                  rw [haddeq] at h1
                  exact h1
                exact mem_set_preserves ho hon _
          · exact commitFirstFeasible_spec h

/-- Full characterisation of one greedy step: the device's candidate list
is only permuted (the in-place response-time sort), static fields are
untouched, and the invariants are carried. -/
theorem greedyStep_spec {sortServersAsc : Bool} {devices : List Device}
    {servers : List Server} {d_idx : Nat} {out : List Device × List Server}
    (h : greedyStep sortServersAsc (devices, servers) d_idx = some out) :
    List.Forall₂ framePerm devices out.1 ∧
    List.Forall₂ sameStaticServer servers out.2 ∧
    (srvsCap servers → srvsCap out.2) ∧
    (srvsOn servers → srvsOn out.2) := by
  unfold greedyStep at h
  simp only [] at h
  cases hget : devices.get? d_idx with
  | none => rw [hget] at h; simp at h
  | some device =>
    rw [hget] at h
    simp only [Option.bind_eq_bind, Option.some_bind] at h
    cases hcommit : commitFirstFeasible servers
        { device with servers := sortByResponseTime sortServersAsc device.servers }
        ({ device with servers := sortByResponseTime sortServersAsc device.servers }).servers with
    | none => rw [hcommit] at h; simp at h
    | some pr =>
      obtain ⟨device2, servers1⟩ := pr
      rw [hcommit] at h
      simp only [Option.some_bind, Option.pure_def, Option.some.injEq] at h
      subst h
      obtain ⟨hframe, hsrvframe, hcap, hon⟩ := commitFirstFeasible_spec hcommit
      have hperm : framePerm device device2 := by
        refine framePerm_trans
          (b := { device with servers := sortByResponseTime sortServersAsc device.servers })
          ⟨⟨rfl, rfl, rfl, rfl, rfl, rfl, rfl, rfl, rfl, rfl, rfl, rfl⟩, ?_⟩
          (framePerm_of_frameEq hframe)
        exact (List.perm_insertionSort _ device.servers).symm
      exact ⟨forall2_set (forall2_refl_of_refl (fun d => framePerm_of_frameEq (frameEq_refl d)) _)
          hget (fun a ha => framePerm_trans ha hperm),
        hsrvframe, hcap, hon⟩

/-- Index-respecting read through `List.set` at a different index. -/
theorem get?_set_ne {α} (l : List α) (i j : Nat) (a : α) (h : i ≠ j) :
    (l.set i a).get? j = l.get? j := by
  simp [List.getElem?_set_ne h]

/-- `sameStatic` devices have equal demands, so `canServe` agrees. -/
theorem canServe_eq_of_sameStatic {s : Server} {a b : Device}
    (h : sameStatic a b) : s.canServe b = s.canServe a := by
  obtain ⟨e1, e2, e3, e4, e5, e6, e7, e8, e9, e10, e11, e12⟩ := h
  unfold Server.canServe
  rw [e2, e7, e8, e9, e11]

/-- `sameStatic` devices have equal demands, so non-negativity carries. -/
theorem nonneg_of_sameStatic {a b : Device} (h : sameStatic a b)
    (ha : nonnegDemand a) : nonnegDemand b := by
  obtain ⟨e1, e2, e3, e4, e5, e6, e7, e8, e9, e10, e11, e12⟩ := h
  obtain ⟨n1, n2, n3, n4, n5⟩ := ha
  exact ⟨e7 ▸ n1, e2 ▸ n2, e8 ▸ n3, e9 ▸ n4, e11 ▸ n5⟩

/-- Non-negativity of demands carries over a device-frame `Forall₂`. -/
theorem devsOK_of_frame : ∀ {l1 l2 : List Device}, List.Forall₂ framePerm l1 l2 →
    devsOK l1 → devsOK l2 := by
  intro l1 l2 h
  induction h with
  | nil => intro _ d hd; simp at hd
  | cons hab hrest ih =>
      intro hl d hd
      rcases List.mem_cons.mp hd with rfl | hd2
      · exact nonneg_of_sameStatic hab.1 (hl _ (List.mem_cons_self _ _))
      · exact ih (fun x hx => hl x (List.mem_cons_of_mem _ hx)) d hd2

/-- Full characterisation of the neighbor candidate loop of
`generateNeighbor`: frames and invariants are carried through the
release/commit move. -/
theorem tryMoves_spec {devices : List Device} {servers : List Server}
    {d_idx : Nat} {device : Device} {cns csu : ℚ}
    (hget : devices.get? d_idx = some device) :
    ∀ {order : List Nat} {tries : Nat} {out : List Device × List Server × ℚ × ℚ},
      tryMoves devices servers d_idx device cns csu order tries = some out →
      List.Forall₂ frameEq devices out.1 ∧
      List.Forall₂ sameStaticServer servers out.2.1 ∧
      (devsOK devices → srvsCap servers → srvsCap out.2.1) ∧
      (srvsOn servers → srvsOn out.2.1)
  | [], tries, out, h => by
      simp only [tryMoves, Option.pure_def, Option.some.injEq] at h
      subst h
      exact ⟨forall2_refl_of_refl frameEq_refl _,
        forall2_refl_of_refl sameStaticServer_refl _,
        fun _ hc => hc, fun ho => ho⟩
  | idxServers :: rest, tries, out, h => by
      rw [tryMoves] at h
      split at h
      · simp only [Option.some.injEq] at h
        subst h
        exact ⟨forall2_refl_of_refl frameEq_refl _,
          forall2_refl_of_refl sameStaticServer_refl _,
          fun _ hc => hc, fun ho => ho⟩
      · simp only [Option.bind_eq_bind] at h
        cases hps : device.servers.get? idxServers with
        | none => rw [hps] at h; simp at h
        | some ps =>
          rw [hps] at h
          simp only [Option.some_bind] at h
          split at h
          · exact tryMoves_spec hget h
          · rename_i hne
            cases hold : servers.get? device.server.id with
            | none => rw [hold] at h; simp at h
            | some old_server =>
              rw [hold] at h
              simp only [Option.some_bind] at h
              cases hnew : servers.get? ps.id with
              | none => rw [hnew] at h; simp at h
              | some new_server =>
                rw [hnew] at h
                simp only [Option.some_bind] at h
                split at h
                · rename_i hcan
                  split at h
                  · rename_i hserved
                    cases hrmveq : old_server.rmvServed device with
                    | mk old1 rest2 =>
                      obtain ⟨device1, flag1⟩ := rest2
                      rw [hrmveq] at h
                      cases haddeq : new_server.addServed device1 with
                      | mk new1 rest3 =>
                        obtain ⟨device2, flag2⟩ := rest3
                        rw [haddeq] at h
                        simp only [Option.pure_def, Option.some.injEq] at h
                        subst h
                        have hdf1 : frameEq device device1 := by
                          have h1 := rmvServed_device_frame old_server device
                          rw [hrmveq] at h1; exact h1
                        have hdf2 : frameEq device1 device2 := by
                          have h1 := addServed_device_frame new_server device1
                          rw [haddeq] at h1; exact h1
                        have hdf : frameEq device ({ device2 with server := ps }) :=
                          frameEq_trans (frameEq_trans hdf1 hdf2) ⟨sameStatic_refl _, rfl⟩
                        have hsf1 : sameStaticServer old_server old1 := by
                          have h1 := rmvServed_server_frame old_server device
                          rw [hrmveq] at h1; exact h1
                        have hsf2 : sameStaticServer new_server new1 := by
                          have h1 := addServed_server_frame new_server device1
                          rw [haddeq] at h1; exact h1
                        have hget2 : (servers.set device.server.id old1).get? ps.id =
                            some new_server := by
                          rw [get?_set_ne _ _ _ _ (fun hh => hne hh.symm)]
                          exact hnew
                        refine ⟨?_, ?_, ?_, ?_⟩
                        · exact forall2_set (forall2_refl_of_refl frameEq_refl _) hget
                            (fun a ha => frameEq_trans ha hdf)
                        · refine @forall2_comp _ sameStaticServer
                            sameStaticServer sameStaticServer
                            (fun a b c h1 h2 => sameStaticServer_trans h1 h2)
                            _ (servers.set device.server.id old1) _ ?_ ?_
                          · exact forall2_set (forall2_refl_of_refl sameStaticServer_refl _)
                              hold (fun a ha => sameStaticServer_trans ha hsf1)
                          · exact forall2_set (forall2_refl_of_refl sameStaticServer_refl _)
                              hget2 (fun a ha => sameStaticServer_trans ha hsf2)
                        · intro hd hc
                          have hnn : nonnegDemand device := hd _ (List.get?_mem hget)
                          have hcap1 : capOK old1 := by
                            have h1 := capOK_rmvServed (hc _ (List.get?_mem hold)) hnn
                            rw [hrmveq] at h1; exact h1
                          have hcan1 : new_server.canServe device1 = true := by
                            rw [canServe_eq_of_sameStatic hdf1.1]; exact hcan
                          have hcap2 : capOK new1 := by
                            have h1 := capOK_addServed (hc _ (List.get?_mem hnew)) hcan1
                            rw [haddeq] at h1; exact h1
                          exact mem_set_preserves (mem_set_preserves hc hcap1 _) hcap2 _
                        · intro ho
                          have hon1 : onIffServed old1 := by
                            have h1 := onIff_rmvServed (d := device) (ho _ (List.get?_mem hold))
                            rw [hrmveq] at h1; exact h1
                          have hon2 : onIffServed new1 := by
                            have h1 := onIff_addServed (d := device1) (ho _ (List.get?_mem hnew))
                            rw [haddeq] at h1; exact h1
                          exact mem_set_preserves (mem_set_preserves ho hon1 _) hon2 _
                  · cases haddeq : new_server.addServed device with
                    | mk new1 rest3 =>
                      obtain ⟨device1, flag2⟩ := rest3
                      rw [haddeq] at h
                      simp only [Option.pure_def, Option.some.injEq] at h
                      subst h
                      have hdf : frameEq device ({ device1 with server := ps }) := by
                        have h1 := addServed_device_frame new_server device
                        rw [haddeq] at h1
                        exact frameEq_trans h1 ⟨sameStatic_refl _, rfl⟩
                      have hsf : sameStaticServer new_server new1 := by
                        have h1 := addServed_server_frame new_server device
                        rw [haddeq] at h1; exact h1
                      refine ⟨?_, ?_, ?_, ?_⟩
                      · exact forall2_set (forall2_refl_of_refl frameEq_refl _) hget
                          (fun a ha => frameEq_trans ha hdf)
                      · exact forall2_set (forall2_refl_of_refl sameStaticServer_refl _)
                          hnew (fun a ha => sameStaticServer_trans ha hsf)
                      · intro _ hc
                        have hcap : capOK new1 := by
                          have h1 := capOK_addServed (hc _ (List.get?_mem hnew)) hcan
                          rw [haddeq] at h1; exact h1
                        exact mem_set_preserves hc hcap _
                      · intro ho
                        have hon : onIffServed new1 := by
                          have h1 := onIff_addServed (d := device) (ho _ (List.get?_mem hnew))
                          rw [haddeq] at h1; exact h1
                        exact mem_set_preserves ho hon _
                · exact tryMoves_spec hget h

/-- Full characterisation of `generateNeighbor`: frames and invariants. -/
theorem generateNeighbor_spec {devices : List Device} {servers : List Server}
    {covered : List Nat} {pickSeed : Nat} {shuffleOrder : List Nat} {cns csu : ℚ}
    {out : List Device × List Server × ℚ × ℚ}
    (h : generateNeighbor devices servers covered pickSeed shuffleOrder cns csu = some out) :
    List.Forall₂ frameEq devices out.1 ∧
    List.Forall₂ sameStaticServer servers out.2.1 ∧
    (devsOK devices → srvsCap servers → srvsCap out.2.1) ∧
    (srvsOn servers → srvsOn out.2.1) := by
  unfold generateNeighbor at h
  split at h
  · simp at h
  · simp only [Option.bind_eq_bind] at h
    cases hidx : covered.get? (randomNumber0 pickSeed (covered.length - 1)) with
    | none => rw [hidx] at h; simp at h
    | some d_idx =>
      rw [hidx] at h
      simp only [Option.some_bind] at h
      cases hget : devices.get? d_idx with
      | none => rw [hget] at h; simp at h
      | some device =>
        rw [hget] at h
        simp only [Option.some_bind] at h
        split at h
        · simp at h
        · exact tryMoves_spec hget h

/-- One simulated-annealing iteration carries the capacity and
activation invariants of both the current and the best solutions, and
never increases the best-known cost. -/
theorem saIteration_inv {covered : List Nat} {r : SARand} {st st' : SAState}
    {imp : Bool} (h : saIteration covered r st = some (st', imp)) :
    (((devsOK st.currentDevices ∧ srvsCap st.currentServers) ∧
      (devsOK st.bestDevices ∧ srvsCap st.bestServers)) →
      ((devsOK st'.currentDevices ∧ srvsCap st'.currentServers) ∧
       (devsOK st'.bestDevices ∧ srvsCap st'.bestServers))) ∧
    ((srvsOn st.currentServers ∧ srvsOn st.bestServers) →
      (srvsOn st'.currentServers ∧ srvsOn st'.bestServers)) ∧
    st'.bestCost ≤ st.bestCost := by
  unfold saIteration at h
  cases hgen : generateNeighbor st.currentDevices st.currentServers covered
      r.pickSeed r.shuffleOrder st.currentCNS st.currentCSU with
  | none => rw [hgen] at h; simp at h
  | some nb =>
    obtain ⟨nD, nS, nCNS, nCSU⟩ := nb
    rw [hgen] at h
    simp only [Option.bind_eq_bind, Option.some_bind] at h
    obtain ⟨hfr, hsfr, hcap, hon⟩ := generateNeighbor_spec hgen
    have hcur : ∀ hP : devsOK st.currentDevices ∧ srvsCap st.currentServers,
        devsOK nD ∧ srvsCap nS :=
      fun hP => ⟨devsOK_of_frame (List.Forall₂.imp (fun a b hab => framePerm_of_frameEq hab) hfr) hP.1,
        hcap hP.1 hP.2⟩
    split at h
    · split at h
      · rename_i hlt
        simp only [Option.pure_def, Option.some.injEq, Prod.mk.injEq] at h
        obtain ⟨h1, _⟩ := h
        subst h1
        refine ⟨fun hP => ⟨hcur hP.1, hcur hP.1⟩,
          fun hO => ⟨hon hO.1, hon hO.1⟩, le_of_lt hlt⟩
      · simp only [Option.pure_def, Option.some.injEq, Prod.mk.injEq] at h
        obtain ⟨h1, _⟩ := h
        subst h1
        exact ⟨fun hP => ⟨hcur hP.1, hP.2⟩, fun hO => ⟨hon hO.1, hO.2⟩, le_refl _⟩
    · split at h
      · simp only [Option.pure_def, Option.some.injEq, Prod.mk.injEq] at h
        obtain ⟨h1, _⟩ := h
        subst h1
        exact ⟨fun hP => ⟨hcur hP.1, hP.2⟩, fun hO => ⟨hon hO.1, hO.2⟩, le_refl _⟩
      · simp only [Option.pure_def, Option.some.injEq, Prod.mk.injEq] at h
        obtain ⟨h1, _⟩ := h
        subst h1
        exact ⟨fun hP => hP, fun hO => hO, le_refl _⟩

/-- The SA inner loop carries the invariants and the monotone best cost. -/
theorem saInner_inv {covered : List Nat} {rnd : Nat → SARand} :
    ∀ (fuel : Nat) (k i : Nat) {st st' : SAState} {k' : Nat},
      saInner covered rnd k i fuel st = some (st', k') →
      (((devsOK st.currentDevices ∧ srvsCap st.currentServers) ∧
        (devsOK st.bestDevices ∧ srvsCap st.bestServers)) →
        ((devsOK st'.currentDevices ∧ srvsCap st'.currentServers) ∧
         (devsOK st'.bestDevices ∧ srvsCap st'.bestServers))) ∧
      ((srvsOn st.currentServers ∧ srvsOn st.bestServers) →
        (srvsOn st'.currentServers ∧ srvsOn st'.bestServers)) ∧
      st'.bestCost ≤ st.bestCost := by
  intro fuel
  induction fuel with
  | zero =>
      intro k i st st' k' h
      rw [saInner] at h
      split at h
      · simp only [Option.some.injEq, Prod.mk.injEq] at h
        obtain ⟨h1, _⟩ := h
        subst h1
        exact ⟨fun hP => hP, fun hO => hO, le_refl _⟩
      · simp at h
  | succ fuel ih =>
      intro k i st st' k' h
      rw [saInner] at h
      split at h
      · simp only [Option.some.injEq, Prod.mk.injEq] at h
        obtain ⟨h1, _⟩ := h
        subst h1
        exact ⟨fun hP => hP, fun hO => hO, le_refl _⟩
      · simp only [Option.bind_eq_bind] at h
        cases hit : saIteration covered (rnd k) st with
        | none => rw [hit] at h; simp at h
        | some pr =>
          obtain ⟨st1, improved⟩ := pr
          rw [hit] at h
          simp only [Option.some_bind] at h
          obtain ⟨hP1, hO1, hb1⟩ := saIteration_inv hit
          obtain ⟨hP2, hO2, hb2⟩ := ih _ _ h
          exact ⟨fun hP => hP2 (hP1 hP), fun hO => hO2 (hO1 hO), le_trans hb2 hb1⟩

/-- The SA cooling loop carries the invariants and the monotone best
cost. -/
theorem saOuter_inv {covered : List Nat} {rnd : Nat → SARand} {alpha : ℚ} :
    ∀ (fuelO : Nat) (k : Nat) (T : ℚ) (fuelI : Nat) {st st' : SAState} {k' : Nat},
      saOuter covered rnd alpha k T fuelO fuelI st = some (st', k') →
      (((devsOK st.currentDevices ∧ srvsCap st.currentServers) ∧
        (devsOK st.bestDevices ∧ srvsCap st.bestServers)) →
        ((devsOK st'.currentDevices ∧ srvsCap st'.currentServers) ∧
         (devsOK st'.bestDevices ∧ srvsCap st'.bestServers))) ∧
      ((srvsOn st.currentServers ∧ srvsOn st.bestServers) →
        (srvsOn st'.currentServers ∧ srvsOn st'.bestServers)) ∧
      st'.bestCost ≤ st.bestCost := by
  intro fuelO
  induction fuelO with
  | zero =>
      intro k T fuelI st st' k' h
      rw [saOuter] at h
      split at h
      · simp only [Option.some.injEq, Prod.mk.injEq] at h
        obtain ⟨h1, _⟩ := h
        subst h1
        exact ⟨fun hP => hP, fun hO => hO, le_refl _⟩
      · simp at h
  | succ fo ih =>
      intro k T fuelI st st' k' h
      rw [saOuter] at h
      split at h
      · simp only [Option.some.injEq, Prod.mk.injEq] at h
        obtain ⟨h1, _⟩ := h
        subst h1
        exact ⟨fun hP => hP, fun hO => hO, le_refl _⟩
      · simp only [Option.bind_eq_bind] at h
        cases hin : saInner covered rnd k 0 fuelI st with
        | none => rw [hin] at h; simp at h
        | some pr =>
          obtain ⟨st1, k1⟩ := pr
          rw [hin] at h
          simp only [Option.some_bind] at h
          obtain ⟨hP1, hO1, hb1⟩ := saInner_inv fuelI k 0 hin
          obtain ⟨hP2, hO2, hb2⟩ := ih _ _ _ h
          exact ⟨fun hP => hP2 (hP1 hP), fun hO => hO2 (hO1 hO), le_trans hb2 hb1⟩

/-- Full characterisation of `randomHeuristic`: frames and invariants at
strategy completion. -/
theorem randomHeuristic_spec {state : Result} {order : List (Nat × Nat)}
    {out : Result} (h : randomHeuristic state order = some out) :
    List.Forall₂ frameEq state.devices out.devices ∧
    List.Forall₂ sameStaticServer state.servers out.servers ∧
    (devsOK state.devices → srvsCap state.servers → srvsCap out.servers) ∧
    (srvsOn state.servers → srvsOn out.servers) := by
  unfold randomHeuristic at h
  simp only [Option.bind_eq_bind] at h
  cases hfold : List.foldlM randomStep (state.devices, state.servers) order with
  | none => rw [hfold] at h; simp at h
  | some st =>
    rw [hfold] at h
    simp only [Option.some_bind] at h
    cases hm : calculateMetrics st.1 st.2 state.metrics with
    | none => rw [hm] at h; simp at h
    | some m =>
      rw [hm] at h
      simp only [Option.some_bind, Option.pure_def, Option.some.injEq] at h
      subst h
      have key := foldlM_option_preserves
        (P := fun st : List Device × List Server =>
          List.Forall₂ frameEq state.devices st.1 ∧
          List.Forall₂ sameStaticServer state.servers st.2 ∧
          (devsOK state.devices → srvsCap state.servers →
            devsOK st.1 ∧ srvsCap st.2) ∧
          (srvsOn state.servers → srvsOn st.2))
        (fun st a st' hP hstep => by
          obtain ⟨f1, f2, f3, f4⟩ :=
            @randomStep_spec st.1 st.2 a.1 a.2 st' hstep
          refine ⟨forall2_comp (R := frameEq) (S := frameEq) (T := frameEq)
              (fun a b c h1 h2 => frameEq_trans h1 h2) hP.1 f1,
            forall2_comp (R := sameStaticServer) (S := sameStaticServer)
              (T := sameStaticServer) (fun a b c h1 h2 => sameStaticServer_trans h1 h2) hP.2.1 f2,
            fun hd hs => ?_, fun ho => f4 (hP.2.2.2 ho)⟩
          obtain ⟨hd1, hs1⟩ := hP.2.2.1 hd hs
          exact ⟨devsOK_of_frame (List.Forall₂.imp
              (fun a b hab => framePerm_of_frameEq hab) f1) hd1, f3 hd1 hs1⟩)
        order (state.devices, state.servers) st
        ⟨forall2_refl_of_refl frameEq_refl _,
         forall2_refl_of_refl sameStaticServer_refl _,
         fun hd hs => ⟨hd, hs⟩, fun ho => ho⟩ hfold
      exact ⟨key.1, key.2.1, fun hd hs => (key.2.2.1 hd hs).2, key.2.2.2⟩

/-- Full characterisation of `greedyHeuristic`: frames (candidate lists
permuted only) and invariants at strategy completion. -/
theorem greedyHeuristic_spec {state : Result} {ascD ascS : Bool}
    {out : Result} (h : greedyHeuristic state ascD ascS = some out) :
    List.Forall₂ framePerm state.devices out.devices ∧
    List.Forall₂ sameStaticServer state.servers out.servers ∧
    (devsOK state.devices → srvsCap state.servers → srvsCap out.servers) ∧
    (srvsOn state.servers → srvsOn out.servers) := by
  unfold greedyHeuristic at h
  simp only [Option.bind_eq_bind] at h
  cases hsort : sortEntities ascD state.devices state.coveredDevicesIdx with
  | none => rw [hsort] at h; simp at h
  | some sortedIdx =>
    rw [hsort] at h
    simp only [Option.some_bind] at h
    cases hfold : List.foldlM (greedyStep ascS) (state.devices, state.servers) sortedIdx with
    | none => rw [hfold] at h; simp at h
    | some st =>
      rw [hfold] at h
      simp only [Option.some_bind] at h
      cases hm : calculateMetrics st.1 st.2 state.metrics with
      | none => rw [hm] at h; simp at h
      | some m =>
        rw [hm] at h
        simp only [Option.some_bind, Option.pure_def, Option.some.injEq] at h
        subst h
        have key := foldlM_option_preserves
          (P := fun st : List Device × List Server =>
            List.Forall₂ framePerm state.devices st.1 ∧
            List.Forall₂ sameStaticServer state.servers st.2 ∧
            (devsOK state.devices → srvsCap state.servers →
              devsOK st.1 ∧ srvsCap st.2) ∧
            (srvsOn state.servers → srvsOn st.2))
          (fun st a st' hP hstep => by
            obtain ⟨f1, f2, f3, f4⟩ :=
              @greedyStep_spec _ st.1 st.2 a st' hstep
            refine ⟨forall2_comp (R := framePerm) (S := framePerm) (T := framePerm)
              (fun a b c h1 h2 => framePerm_trans h1 h2) hP.1 f1,
              forall2_comp (R := sameStaticServer) (S := sameStaticServer)
              (T := sameStaticServer) (fun a b c h1 h2 => sameStaticServer_trans h1 h2) hP.2.1 f2,
              fun hd hs => ?_, fun ho => f4 (hP.2.2.2 ho)⟩
            obtain ⟨hd1, hs1⟩ := hP.2.2.1 hd hs
            exact ⟨devsOK_of_frame f1 hd1, f3 hs1⟩)
          sortedIdx (state.devices, state.servers) st
          ⟨forall2_refl_of_refl (fun d => framePerm_of_frameEq (frameEq_refl d)) _,
           forall2_refl_of_refl sameStaticServer_refl _,
           fun hd hs => ⟨hd, hs⟩, fun ho => ho⟩ hfold
        exact ⟨key.1, key.2.1, fun hd hs => (key.2.2.1 hd hs).2, key.2.2.2⟩

/-- Shape of a successful `simulatedAnnealing` call: the returned state
keeps the input's devices and servers (only the metrics are replaced),
and the final internal state evolves from the initial one by `saOuter`. -/
theorem simulatedAnnealing_shape {state : Result} {T alpha : ℚ}
    {rnd : Nat → SARand} {fuelO fuelI : Nat} {out : Result} {fin : SAState}
    (h : simulatedAnnealing state T alpha rnd fuelO fuelI = some (out, fin)) :
    out.devices = state.devices ∧ out.servers = state.servers ∧
    out.coveredDevicesIdx = state.coveredDevicesIdx ∧
    ∃ k', saOuter state.coveredDevicesIdx rnd alpha 0 T fuelO fuelI
      { currentDevices := state.devices, currentServers := state.servers,
        bestDevices := state.devices, bestServers := state.servers,
        currentCNS := state.metrics.outputs.cost_of_non_service,
        currentCSU := state.metrics.outputs.cost_of_servers_used,
        currentCost := state.metrics.outputs.cost_of_non_service +
          state.metrics.outputs.cost_of_servers_used,
        bestCNS := state.metrics.outputs.cost_of_non_service,
        bestCSU := state.metrics.outputs.cost_of_servers_used,
        bestCost := state.metrics.outputs.cost_of_non_service +
          state.metrics.outputs.cost_of_servers_used } = some (fin, k') := by
  unfold simulatedAnnealing at h
  simp only [Option.bind_eq_bind] at h
  cases houter : saOuter state.coveredDevicesIdx rnd alpha 0 T fuelO fuelI
      { currentDevices := state.devices, currentServers := state.servers,
        bestDevices := state.devices, bestServers := state.servers,
        currentCNS := state.metrics.outputs.cost_of_non_service,
        currentCSU := state.metrics.outputs.cost_of_servers_used,
        currentCost := state.metrics.outputs.cost_of_non_service +
          state.metrics.outputs.cost_of_servers_used,
        bestCNS := state.metrics.outputs.cost_of_non_service,
        bestCSU := state.metrics.outputs.cost_of_servers_used,
        bestCost := state.metrics.outputs.cost_of_non_service +
          state.metrics.outputs.cost_of_servers_used } with
  | none => rw [houter] at h; simp at h
  | some pr =>
    obtain ⟨stF, k⟩ := pr
    rw [houter] at h
    simp only [Option.some_bind] at h
    cases hm : calculateMetrics stF.bestDevices stF.bestServers state.metrics with
    | none => rw [hm] at h; simp at h
    | some m =>
      rw [hm] at h
      simp only [Option.some_bind, Option.pure_def, Option.some.injEq,
        Prod.mk.injEq] at h
      obtain ⟨h1, h2⟩ := h
      refine ⟨?_, ?_, ?_, ⟨k, ?_⟩⟩
      · rw [← h1]
      · rw [← h1]
      · rw [← h1]
      · rw [h2]

/-- C1: from any state whose devices have non-negative demands and whose
servers satisfy the capacity invariant (true of every pre-calculated
state: fresh zero accumulators against non-negative capacities), every
completed strategy run -- random, any greedy variant, simulated
annealing -- yields servers whose accumulated demand stays within
capacity in all five dimensions, because `addServed` is only reached
behind a passing `canServe`.  For the annealing run this covers the
returned state and the internal best and current solutions. -/
theorem c1_capacity_invariant (state : Result) (order : List (Nat × Nat))
    (ascD ascS : Bool) (T alpha : ℚ) (rnd : Nat → SARand) (fuelO fuelI : Nat)
    (hdev : devsOK state.devices) (hsrv : srvsCap state.servers) :
    (∀ out, randomHeuristic state order = some out → srvsCap out.servers) ∧
    (∀ out, greedyHeuristic state ascD ascS = some out → srvsCap out.servers) ∧
    (∀ out fin, simulatedAnnealing state T alpha rnd fuelO fuelI = some (out, fin) →
      srvsCap out.servers ∧ srvsCap fin.bestServers ∧ srvsCap fin.currentServers) := by
  refine ⟨fun out h => (randomHeuristic_spec h).2.2.1 hdev hsrv,
    fun out h => (greedyHeuristic_spec h).2.2.1 hdev hsrv,
    fun out fin h => ?_⟩
  obtain ⟨hd, hs, _, k', houter⟩ := simulatedAnnealing_shape h
  have key := (saOuter_inv fuelO 0 T fuelI houter).1 ⟨⟨hdev, hsrv⟩, ⟨hdev, hsrv⟩⟩
  exact ⟨hs ▸ hsrv, key.2.2, key.1.2⟩

/-- C1 witness: the capacity invariant evaluated after the three concrete
strategy runs on the running example. -/
theorem c1_capacity_invariant_witness :
    devsOK exState.devices ∧ srvsCap exState.servers ∧
    randomHeuristic exState [(1, 0)] = some c1RandomOut ∧
    srvsCap c1RandomOut.servers ∧
    greedyHeuristic exState true true = some c1GreedyOut ∧
    srvsCap c1GreedyOut.servers ∧
    simulatedAnnealing exState (1 / 100) (1 / 100) exRnd 2 12 = some c1SAOut ∧
    srvsCap c1SAOut.2.bestServers :=
  ⟨by with_unfolding_all decide, by with_unfolding_all decide, by with_unfolding_all decide,
   (c1_capacity_invariant exState [(1, 0)] true true (1 / 100) (1 / 100) exRnd 2 12
     (by with_unfolding_all decide) (by with_unfolding_all decide)).1 c1RandomOut (by with_unfolding_all decide),
   by with_unfolding_all decide,
   (c1_capacity_invariant exState [(1, 0)] true true (1 / 100) (1 / 100) exRnd 2 12
     (by with_unfolding_all decide) (by with_unfolding_all decide)).2.1 c1GreedyOut (by with_unfolding_all decide),
   by with_unfolding_all decide,
   ((c1_capacity_invariant exState [(1, 0)] true true (1 / 100) (1 / 100) exRnd 2 12
     (by with_unfolding_all decide) (by with_unfolding_all decide)).2.2 c1SAOut.1 c1SAOut.2 (by with_unfolding_all decide)).2.1⟩

/-- C5: `addServed` and `rmvServed` preserve the activation invariant
`on = true ↔ served set non-empty`, hence every strategy run started
from a state satisfying it (as every pre-calculated state does, with
`on = false` and empty sets) ends with every server satisfying it; for
annealing this covers the returned state and the internal best and
current solutions. -/
theorem c5_activation_invariant (s : Server) (d : Device)
    (state : Result) (order : List (Nat × Nat)) (ascD ascS : Bool)
    (T alpha : ℚ) (rnd : Nat → SARand) (fuelO fuelI : Nat)
    (hs : onIffServed s) (hstate : srvsOn state.servers) :
    onIffServed (s.addServed d).1 ∧ onIffServed (s.rmvServed d).1 ∧
    (∀ out, randomHeuristic state order = some out → srvsOn out.servers) ∧
    (∀ out, greedyHeuristic state ascD ascS = some out → srvsOn out.servers) ∧
    (∀ out fin, simulatedAnnealing state T alpha rnd fuelO fuelI = some (out, fin) →
      srvsOn out.servers ∧ srvsOn fin.bestServers ∧ srvsOn fin.currentServers) := by
  refine ⟨onIff_addServed hs, onIff_rmvServed hs,
    fun out h => (randomHeuristic_spec h).2.2.2 hstate,
    fun out h => (greedyHeuristic_spec h).2.2.2 hstate,
    fun out fin h => ?_⟩
  obtain ⟨hd, hsv, _, k', houter⟩ := simulatedAnnealing_shape h
  have key := (saOuter_inv fuelO 0 T fuelI houter).2.1 ⟨hstate, hstate⟩
  exact ⟨hsv ▸ hstate, key.2, key.1⟩

/-- C5 witness: the activation invariant evaluated on the concrete
server/device pair and after the three concrete strategy runs. -/
theorem c5_activation_invariant_witness :
    onIffServed exSrvE ∧ srvsOn exState.servers ∧
    onIffServed (exSrvE.addServed exDev1).1 ∧
    randomHeuristic exState [(1, 0)] = some c1RandomOut ∧
    srvsOn c1RandomOut.servers ∧
    simulatedAnnealing exState (1 / 100) (1 / 100) exRnd 2 12 = some c1SAOut ∧
    srvsOn c1SAOut.2.bestServers :=
  ⟨by with_unfolding_all decide, by with_unfolding_all decide,
   (c5_activation_invariant exSrvE exDev1 exState [(1, 0)] true true (1 / 100)
     (1 / 100) exRnd 2 12 (by with_unfolding_all decide) (by with_unfolding_all decide)).1,
   by with_unfolding_all decide,
   (c5_activation_invariant exSrvE exDev1 exState [(1, 0)] true true (1 / 100)
     (1 / 100) exRnd 2 12 (by with_unfolding_all decide) (by with_unfolding_all decide)).2.2.1 c1RandomOut (by with_unfolding_all decide),
   by with_unfolding_all decide,
   ((c5_activation_invariant exSrvE exDev1 exState [(1, 0)] true true (1 / 100)
     (1 / 100) exRnd 2 12 (by with_unfolding_all decide) (by with_unfolding_all decide)).2.2.2.2 c1SAOut.1 c1SAOut.2
     (by with_unfolding_all decide)).2.1⟩

/-- C6: the best-known cost of simulated annealing is non-increasing at
every granularity: across one iteration, across the inner loop, across
the cooling loop, and across a whole `simulatedAnnealing` call (whose
initial best cost is the input metrics' non-service plus servers-used
cost). -/
theorem c6_bestcost_monotone (covered : List Nat) (rnd : Nat → SARand) (alpha : ℚ) :
    (∀ (r : SARand) (st st' : SAState) (imp : Bool),
        saIteration covered r st = some (st', imp) → st'.bestCost ≤ st.bestCost) ∧
    (∀ (fuel k i : Nat) (st st' : SAState) (k' : Nat),
        saInner covered rnd k i fuel st = some (st', k') → st'.bestCost ≤ st.bestCost) ∧
    (∀ (fuelO k : Nat) (T : ℚ) (fuelI : Nat) (st st' : SAState) (k' : Nat),
        saOuter covered rnd alpha k T fuelO fuelI st = some (st', k') →
        st'.bestCost ≤ st.bestCost) ∧
    (∀ (state : Result) (T : ℚ) (fuelO fuelI : Nat) (out : Result) (fin : SAState),
        simulatedAnnealing state T alpha rnd fuelO fuelI = some (out, fin) →
        fin.bestCost ≤ state.metrics.outputs.cost_of_non_service +
          state.metrics.outputs.cost_of_servers_used) := by
  refine ⟨fun r st st' imp h => (saIteration_inv h).2.2,
    fun fuel k i st st' k' h => (saInner_inv fuel k i h).2.2,
    fun fuelO k T fuelI st st' k' h => (saOuter_inv fuelO k T fuelI h).2.2,
    fun state T fuelO fuelI out fin h => ?_⟩
  obtain ⟨_, _, _, k', houter⟩ := simulatedAnnealing_shape h
  exact (saOuter_inv fuelO 0 T fuelI houter).2.2

/-- C6 witness: the improving first iteration of the concrete annealing
run lowers the best cost from 10 to 1. -/
theorem c6_bestcost_monotone_witness :
    saIteration [1] (exRnd 0) exSA0 = some c6Out ∧
    c6Out.1.bestCost ≤ exSA0.bestCost :=
  ⟨by with_unfolding_all rfl,
   (c6_bestcost_monotone [1] exRnd (1 / 100)).1 (exRnd 0) exSA0 c6Out.1 c6Out.2
     (by with_unfolding_all rfl)⟩

/-- C2 (code bug): on the concrete run the returned state's device list
still equals the input's (device 1 unserved, as left by the initial
solution) and differs from the internal best solution's (which serves
device 1), while the metrics ARE recomputed from that best (served
count 1).  `simulatedAnnealing` never copies `bestDevices`/`bestServers`
back into `state`, contradicting its own documentation ("It is updated
in-place to hold the best solution found by the algorithm"). -/
theorem c2_sa_returns_initial_not_best :
    (simulatedAnnealing exState (1 / 100) (1 / 100) exRnd 2 12).map
        (fun p => (decide (p.1.devices = exState.devices),
                   decide (p.1.servers = exState.servers),
                   decide (p.1.devices = p.2.bestDevices),
                   p.1.metrics.outputs.devices_served_count,
                   p.2.bestDevices.map (fun d => d.served),
                   p.1.devices.map (fun d => d.served)))
      = some (true, true, false, 1, [false, true], [false, false]) := by
  with_unfolding_all rfl

/-- C4 (amended): after pre-calculation, the random heuristic and the
neighbor step leave every device's candidate list exactly unchanged,
and the greedy heuristic leaves it unchanged up to order (its in-place
response-time sort permutes it; every entry's id, routing hint,
distance and timing fields are preserved).  All strategies leave every
other device field except `served` and the committed `server` link, and
every server field except `on` and the demand accumulator, unchanged;
the annealing call returns the state's device/server lists untouched. -/
theorem c4_frame_amended (state : Result) (order : List (Nat × Nat))
    (ascD ascS : Bool) (T alpha : ℚ) (rnd : Nat → SARand) (fuelO fuelI : Nat)
    (devices : List Device) (servers : List Server) (covered : List Nat)
    (pickSeed : Nat) (shuffleOrder : List Nat) (cns csu : ℚ) :
    (∀ out, randomHeuristic state order = some out →
      List.Forall₂ frameEq state.devices out.devices ∧
      List.Forall₂ sameStaticServer state.servers out.servers) ∧
    (∀ out, greedyHeuristic state ascD ascS = some out →
      List.Forall₂ framePerm state.devices out.devices ∧
      List.Forall₂ sameStaticServer state.servers out.servers) ∧
    (∀ out, generateNeighbor devices servers covered pickSeed shuffleOrder cns csu =
        some out →
      List.Forall₂ frameEq devices out.1 ∧
      List.Forall₂ sameStaticServer servers out.2.1) ∧
    (∀ out fin, simulatedAnnealing state T alpha rnd fuelO fuelI = some (out, fin) →
      out.devices = state.devices ∧ out.servers = state.servers) :=
  ⟨fun out h => ⟨(randomHeuristic_spec h).1, (randomHeuristic_spec h).2.1⟩,
   fun out h => ⟨(greedyHeuristic_spec h).1, (greedyHeuristic_spec h).2.1⟩,
   fun out h => ⟨(generateNeighbor_spec h).1, (generateNeighbor_spec h).2.1⟩,
   fun out fin h => ⟨(simulatedAnnealing_shape h).1, (simulatedAnnealing_shape h).2.1⟩⟩

/-- C4 counterexample: the claim's "candidate-link list is left
unchanged" fails for the greedy heuristic, whose in-place sort reorders
the list from candidate ids `[1, 2]` (response times 7, 3) to `[2, 1]`. -/
theorem c4_counterexample :
    greedyHeuristic c4State true true = some c4GreedyOut ∧
    (c4GreedyOut.devices.getD 1 {}).servers ≠ (c4State.devices.getD 1 {}).servers ∧
    (c4GreedyOut.devices.getD 1 {}).servers.map (fun c => c.id) = [2, 1] ∧
    (c4State.devices.getD 1 {}).servers.map (fun c => c.id) = [1, 2] := by
  with_unfolding_all decide

/-- C4 witness: the frames evaluated on the concrete two-candidate state
for all three strategy kinds. -/
theorem c4_frame_amended_witness :
    randomHeuristic c4State [(1, 0)] = some c4RandomOut ∧
    List.Forall₂ frameEq c4State.devices c4RandomOut.devices ∧
    greedyHeuristic c4State true true = some c4GreedyOut ∧
    List.Forall₂ framePerm c4State.devices c4GreedyOut.devices ∧
    generateNeighbor c4State.devices c4State.servers [1] 0 [0, 1] 10 0 =
      some c4NeighborOut ∧
    List.Forall₂ frameEq c4State.devices c4NeighborOut.1 :=
  ⟨by with_unfolding_all rfl,
   ((c4_frame_amended c4State [(1, 0)] true true (1 / 100) (1 / 100) exRnd 2 12
      c4State.devices c4State.servers [1] 0 [0, 1] 10 0).1 c4RandomOut
      (by with_unfolding_all rfl)).1,
   by with_unfolding_all rfl,
   ((c4_frame_amended c4State [(1, 0)] true true (1 / 100) (1 / 100) exRnd 2 12
      c4State.devices c4State.servers [1] 0 [0, 1] 10 0).2.1 c4GreedyOut
      (by with_unfolding_all rfl)).1,
   by with_unfolding_all rfl,
   ((c4_frame_amended c4State [(1, 0)] true true (1 / 100) (1 / 100) exRnd 2 12
      c4State.devices c4State.servers [1] 0 [0, 1] 10 0).2.2.1 c4NeighborOut
      (by with_unfolding_all rfl)).1⟩

/-- C7: the covered-device sort used by the greedy heuristic returns a
permutation of its input that is sorted under the total comparator
`sortLe` (attribute in the chosen direction, ties broken by ascending
original index).  Consequently two distinct indices with equal `cnd`
always appear in ascending order, for BOTH direction flags, and the
result is the unique sorted permutation: greedy's device processing
order is a deterministic function of the state and the flags. -/
theorem c7_greedy_tiebreak_deterministic (asc : Bool) (entities : List Device)
    (idxs out : List Nat) (hne : entities ≠ [])
    (h : sortEntities asc entities idxs = some out) :
    out.Perm idxs ∧
    List.Sorted (sortLe asc entities) out ∧
    List.Pairwise (fun i j => attrAt entities i = attrAt entities j → i ≠ j → i < j) out ∧
    (∀ l, l.Perm idxs → List.Sorted (sortLe asc entities) l → l = out) := by
  unfold sortEntities at h
  by_cases h0 : entities.isEmpty || idxs.isEmpty
  · rw [if_pos h0] at h
    simp only [Option.some.injEq] at h
    subst h
    have hidxs : idxs = [] := by
      rcases Bool.or_eq_true_iff.mp h0 with h1 | h1
      · exact absurd (List.isEmpty_iff.mp h1) hne
      · exact List.isEmpty_iff.mp h1
    subst hidxs
    exact ⟨List.Perm.refl _, List.sorted_nil, List.Pairwise.nil,
      fun l hl _ => List.Perm.eq_nil hl⟩
  · rw [if_neg h0] at h
    split at h
    · simp only [Option.some.injEq] at h
      subst h
      have hperm : (List.insertionSort (sortLe asc entities) idxs).Perm idxs :=
        List.perm_insertionSort _ idxs
      have hsorted : List.Sorted (sortLe asc entities)
          (List.insertionSort (sortLe asc entities) idxs) :=
        List.sorted_insertionSort _ idxs
      refine ⟨hperm, hsorted, ?_, ?_⟩
      · refine hsorted.imp ?_
        intro i j hij hattr hne2
        rcases hij with ⟨_, hle⟩ | ⟨hneq, _⟩
        · exact lt_of_le_of_ne hle hne2
        · exact absurd hattr hneq
      · intro l hl hsl
        exact List.eq_of_perm_of_sorted (hl.trans hperm.symm) hsl hsorted
    · simp at h

/-- C7 witness: two devices with equal `cnd` (indices 1 and 2), submitted
in the order `[2, 1]`, are sorted to ascending index order `[1, 2]` for
both direction flags, and that output is the unique sorted permutation. -/
theorem c7_greedy_tiebreak_deterministic_witness :
    c7Ents ≠ [] ∧
    sortEntities true c7Ents [2, 1] = some [1, 2] ∧
    sortEntities false c7Ents [2, 1] = some [1, 2] ∧
    List.Pairwise (fun i j => attrAt c7Ents i = attrAt c7Ents j → i ≠ j → i < j) [1, 2] ∧
    List.Pairwise (fun i j => attrAt c7Ents i = attrAt c7Ents j → i ≠ j → i < j) [1, 2] :=
  ⟨by with_unfolding_all decide,
   by with_unfolding_all rfl,
   by with_unfolding_all rfl,
   (c7_greedy_tiebreak_deterministic true c7Ents [2, 1] [1, 2]
     (by with_unfolding_all decide) (by with_unfolding_all rfl)).2.2.1,
   (c7_greedy_tiebreak_deterministic false c7Ents [2, 1] [1, 2]
     (by with_unfolding_all decide) (by with_unfolding_all rfl)).2.2.1⟩

/-- `mapTail` preserves length. -/
theorem mapTail_length {α} (f : α → α) : ∀ l : List α, (mapTail f l).length = l.length
  | [] => rfl
  | _ :: _ => by simp [mapTail]

/-- Members of the tail of a `mapTail` are images of tail members. -/
theorem mem_mapTail_tail {α} {f : α → α} :
    ∀ {l : List α} {x : α}, x ∈ (mapTail f l).tail → ∃ y ∈ l.tail, x = f y := by
  intro l x h
  cases l with
  | nil => simp [mapTail] at h
  | cons a l =>
      simp only [mapTail, List.tail_cons, List.mem_map] at h
      obtain ⟨y, hy, he⟩ := h
      exact ⟨y, hy, he.symm⟩

/-- Every edge candidate id lies in `[j0, j0 + length)`. -/
theorem edgeCandidates_id_bound {dist : ℚ × ℚ → ℚ × ℚ → ℚ} {d : Device} {radius : ℚ} :
    ∀ {j0 : Nat} {l : List Server} {c : server_covering},
      c ∈ edgeCandidates dist d radius j0 l → j0 ≤ c.id ∧ c.id < j0 + l.length := by
  intro j0 l
  induction l generalizing j0 with
  | nil => intro c h; simp [edgeCandidates] at h
  | cons s rest ih =>
      intro c h
      rw [edgeCandidates] at h
      split at h
      · rcases List.mem_cons.mp h with rfl | h2
        · refine ⟨Nat.le_refl _, ?_⟩
          show j0 < j0 + (rest.length + 1)
          omega
        · obtain ⟨h1, h2⟩ := ih h2
          refine ⟨by omega, ?_⟩
          show c.id < j0 + (rest.length + 1)
          omega
      · obtain ⟨h1, h2⟩ := ih h
        refine ⟨by omega, ?_⟩
        show c.id < j0 + (rest.length + 1)
        omega

/-- Every cloud candidate id lies in `[j0, j0 + length)`. -/
theorem cloudCandidates_id_bound :
    ∀ {j0 : Nat} {l : List Server} {c : server_covering},
      c ∈ cloudCandidates j0 l → j0 ≤ c.id ∧ c.id < j0 + l.length := by
  intro j0 l
  induction l generalizing j0 with
  | nil => intro c h; simp [cloudCandidates] at h
  | cons s rest ih =>
      intro c h
      rw [cloudCandidates] at h
      split at h
      · rcases List.mem_cons.mp h with rfl | h2
        · refine ⟨Nat.le_refl _, ?_⟩
          show j0 < j0 + (rest.length + 1)
          omega
        · obtain ⟨h1, h2⟩ := ih h2
          refine ⟨by omega, ?_⟩
          show c.id < j0 + (rest.length + 1)
          omega
      · obtain ⟨h1, h2⟩ := ih h
        refine ⟨by omega, ?_⟩
        show c.id < j0 + (rest.length + 1)
        omega

/-- For a fresh device (empty candidate list), `coverDevice` produces
only candidates with ids in `[1, servers.length)`. -/
theorem coverDevice_id_bound {dist : ℚ × ℚ → ℚ × ℚ → ℚ} {servers : List Server}
    {radius : ℚ} {d : Device} (hfresh : d.servers = [])
    (hsrv : servers ≠ []) :
    ∀ c ∈ (coverDevice dist servers radius d).servers, c.id < servers.length := by
  intro c hc
  have hlen : servers.tail.length + 1 = servers.length := by
    cases servers with
    | nil => exact absurd rfl hsrv
    | cons a l => simp
  unfold coverDevice at hc
  simp only [hfresh, List.nil_append] at hc
  split at hc
  · rcases List.mem_append.mp hc with h1 | h1
    · have := edgeCandidates_id_bound h1
      omega
    · have := cloudCandidates_id_bound h1
      omega
  · have := edgeCandidates_id_bound hc
    omega

/-- Generic totality of `Option`-valued `mapM`. -/
theorem mapM_option_total {α β : Type _} {f : α → Option β} :
    ∀ {l : List α}, (∀ a ∈ l, ∃ b, f a = some b) → ∃ l', l.mapM f = some l' := by
  intro l
  induction l with
  | nil => intro _; exact ⟨[], rfl⟩
  | cons a rest ih =>
      intro h
      obtain ⟨b, hb⟩ := h a (List.mem_cons_self a rest)
      obtain ⟨l', hl'⟩ := ih (fun x hx => h x (List.mem_cons_of_mem a hx))
      refine ⟨b :: l', ?_⟩
      rw [List.mapM_cons, hb, hl']
      rfl

/-- `closestEdge` succeeds and stays in range when all candidate ids and
the initial id are in range. -/
theorem closestEdge_total {servers : List Server} :
    ∀ {cands : List server_covering} {init : Nat × ℚ},
      (∀ c ∈ cands, c.id < servers.length) → init.1 < servers.length →
      ∃ ce, closestEdge servers cands init = some ce ∧ ce.1 < servers.length := by
  intro cands
  induction cands with
  | nil => intro init _ hinit; exact ⟨init, rfl, hinit⟩
  | cons c rest ih =>
      intro init hc hinit
      have hcid : c.id < servers.length := hc c (List.mem_cons_self c rest)
      rw [closestEdge]
      simp only [List.get?_eq_get hcid]
      by_cases hcond : (servers.get ⟨c.id, hcid⟩).type = 'E' ∧ c.distance < init.2
      · rw [if_pos hcond]
        exact @ih (c.id, c.distance)
          (fun x hx => hc x (List.mem_cons_of_mem c hx)) hcid
      · rw [if_neg hcond]
        exact ih (fun x hx => hc x (List.mem_cons_of_mem c hx)) hinit

/-- `timeCand` succeeds when the candidate's and the routing ids are in
range. -/
theorem timeCand_total {dist : ℚ × ℚ → ℚ × ℚ → ℚ} {servers : List Server}
    {device : Device} {ce : Nat × ℚ} {c : server_covering}
    (hc : c.id < servers.length) (hce : ce.1 < servers.length) :
    ∃ c', timeCand dist servers device ce c = some c' := by
  unfold timeCand
  rw [List.get?_eq_get hc]
  simp only [Option.bind_eq_bind, Option.some_bind]
  split
  · rw [List.get?_eq_get hce]
    exact ⟨_, rfl⟩
  · exact ⟨_, rfl⟩

/-- `timeDevice` succeeds for any device whose candidate ids are in range
(given a non-empty server vector). -/
theorem timeDevice_total {dist : ℚ × ℚ → ℚ × ℚ → ℚ} {servers : List Server}
    {d : Device} (hids : ∀ c ∈ d.servers, c.id < servers.length)
    (hsrv : servers ≠ []) :
    ∃ d', timeDevice dist servers d = some d' := by
  unfold timeDevice
  split
  · have h0 : (0 : Nat) < servers.length := by
      cases servers with
      | nil => exact absurd rfl hsrv
      | cons a l => simp
    obtain ⟨ce, hce, hce1⟩ := @closestEdge_total _ _ (0, EARTH_RADIUS_KM) hids h0
    rw [hce]
    simp only [Option.bind_eq_bind, Option.some_bind]
    obtain ⟨cands, hcands⟩ := mapM_option_total
      (fun c hc => timeCand_total (hids c hc) hce1)
    rw [hcands]
    exact ⟨_, rfl⟩
  · exact ⟨d, rfl⟩

/-- `timeCalculation` succeeds when every (tail) device's candidate ids
are in range and the server vector is non-empty. -/
theorem timeCalculation_total {dist : ℚ × ℚ → ℚ × ℚ → ℚ} {devices : List Device}
    {servers : List Server}
    (hids : ∀ d ∈ devices.tail, ∀ c ∈ d.servers, c.id < servers.length)
    (hsrv : servers ≠ []) :
    ∃ devices', timeCalculation dist devices servers = some devices' := by
  cases devices with
  | nil => exact ⟨[], rfl⟩
  | cons d0 rest =>
      obtain ⟨rest', hrest⟩ := mapM_option_total (f := timeDevice dist servers)
        (l := rest)
        (fun d hd => @timeDevice_total dist _ _ (hids d (by simpa using hd)) hsrv)
      refine ⟨d0 :: rest', ?_⟩
      unfold timeCalculation
      simp only [Option.bind_eq_bind]
      rw [hrest]
      rfl

/-- An out-of-range technology id resolves to the error sentinel. -/
theorem techParams_invalid {tech : Int} (h : tech < 1 ∨ 6 < tech) :
    techParams tech = (-1, -1) := by
  unfold techParams
  split_ifs with h1 h2 h3 h4 h5 h6 <;> first | omega | rfl

/-- An in-range technology id resolves to a non-negative radius. -/
theorem techParams_valid {tech : Int} (h1 : 1 ≤ tech) (h2 : tech ≤ 6) :
    0 ≤ (techParams tech).1 := by
  unfold techParams
  split_ifs with g1 g2 g3 g4 g5 g6 <;> first | (exfalso; omega) | norm_num

/-- The device component of `findCovering` is the per-device map. -/
theorem findCovering_devices (dist : ℚ × ℚ → ℚ × ℚ → ℚ) (devices : List Device)
    (servers : List Server) (radius : ℚ) (m : Metrics) :
    (findCovering dist devices servers radius m).2.1 =
      mapTail (coverDevice dist servers radius) devices := rfl

/-- `bandwidth` written as an explicit pair. -/
theorem bandwidth_eq (devices : List Device) (servers : List Server) (rate : ℚ) :
    bandwidth devices servers rate =
      (mapTail (fun d => { d with bw := rate }) devices,
       mapTail (fun s => { s with bw := DATA_RATE_EC_TO_CC_MBPS }) servers) := rfl

/-- `coverage` always succeeds on fresh loadable data: for an invalid
technology id it returns immediately, otherwise the whole timing pass is
total. -/
theorem coverage_total {dist : ℚ × ℚ → ℚ × ℚ → ℚ} {ld : List Device}
    {ls : List Server} {m : Metrics}
    (hfresh : ∀ d ∈ ld.tail, d.servers = []) (hsrv : ls ≠ []) :
    (coverage dist ld ls m).isSome = true := by
  unfold coverage
  by_cases hc : (techParams m.inputs.tech).1 < 0
  · rw [if_pos hc]; rfl
  · rw [if_neg hc]
    rw [bandwidth_eq]
    simp only [Option.bind_eq_bind]
    rw [findCovering_devices]
    have hsrv1 : mapTail (fun s => { s with bw := DATA_RATE_EC_TO_CC_MBPS }) ls ≠ [] := by
      intro h0
      have h1 := congrArg List.length h0
      rw [mapTail_length] at h1
      exact hsrv (List.length_eq_zero.mp h1)
    have hids : ∀ d ∈ (mapTail (coverDevice dist
        (mapTail (fun s => { s with bw := DATA_RATE_EC_TO_CC_MBPS }) ls)
        (techParams m.inputs.tech).1)
        (mapTail (fun d => { d with bw := (techParams m.inputs.tech).2 }) ld)).tail,
        ∀ c ∈ d.servers,
        c.id < (mapTail (fun s => { s with bw := DATA_RATE_EC_TO_CC_MBPS }) ls).length := by
      intro d hd
      obtain ⟨d1, hd1, rfl⟩ := mem_mapTail_tail hd
      obtain ⟨d0, hd0, rfl⟩ := mem_mapTail_tail hd1
      exact coverDevice_id_bound (by simpa using hfresh d0 hd0) hsrv1
    obtain ⟨devices3, ht⟩ := @timeCalculation_total dist _ _ hids hsrv1
    rw [ht]
    rfl

/-- C3 (amended): `pre_calculation` yields no state when a count is
non-positive or when data loading fails (empty device or server data);
but an out-of-range technology id is NOT rejected: the run proceeds and
returns a populated state whose covered-device list is empty (the error
is printed inside `coverage` and swallowed).  For positive counts and
loadable fresh data the call always returns a state. -/
theorem c3_pre_calculation_amended (dist : ℚ × ℚ → ℚ × ℚ → ℚ)
    (loadedDevices : List Device) (loadedServers : List Server)
    (numDevices numServersEC numServersCC tech : Int) :
    (numDevices ≤ 0 ∨ numServersEC ≤ 0 ∨ numServersCC ≤ 0 →
      pre_calculation dist loadedDevices loadedServers numDevices numServersEC
        numServersCC tech = none) ∧
    (loadedDevices.isEmpty = true ∨ loadedServers.isEmpty = true →
      pre_calculation dist loadedDevices loadedServers numDevices numServersEC
        numServersCC tech = none) ∧
    ((tech < 1 ∨ 6 < tech) → 0 < numDevices → 0 < numServersEC → 0 < numServersCC →
      loadedDevices.isEmpty = false → loadedServers.isEmpty = false →
      pre_calculation dist loadedDevices loadedServers numDevices numServersEC
          numServersCC tech =
        some { devices := loadedDevices, servers := loadedServers,
               coveredDevicesIdx := [],
               metrics := { inputs :=
                 { devices := numDevices, servers_ec := numServersEC,
                   servers_cc := numServersCC, tech := tech } } }) ∧
    (0 < numDevices → 0 < numServersEC → 0 < numServersCC →
      loadedDevices.isEmpty = false → loadedServers.isEmpty = false →
      (∀ d ∈ loadedDevices.tail, d.servers = []) →
      (pre_calculation dist loadedDevices loadedServers numDevices numServersEC
        numServersCC tech).isSome = true) := by
  refine ⟨?_, ?_, ?_, ?_⟩
  · intro h
    unfold pre_calculation
    rw [if_pos h]
  · intro h
    unfold pre_calculation
    by_cases hcnt : numDevices ≤ 0 ∨ numServersEC ≤ 0 ∨ numServersCC ≤ 0
    · rw [if_pos hcnt]
    · rw [if_neg hcnt, if_pos (by rcases h with h | h <;> simp [h])]
  · intro hbad h1 h2 h3 hd hs
    unfold pre_calculation
    rw [if_neg (by omega), if_neg (by simp [hd, hs])]
    unfold coverage
    simp only []
    rw [techParams_invalid hbad]
    norm_num
  · intro h1 h2 h3 hd hs hfresh
    unfold pre_calculation
    rw [if_neg (by omega), if_neg (by simp [hd, hs])]
    have hsrv : loadedServers ≠ [] := by
      intro h0; rw [h0] at hs; simp at hs
    have hcov := @coverage_total dist loadedDevices
      loadedServers
      { inputs := { devices := numDevices, servers_ec := numServersEC, servers_cc := numServersCC, tech := tech } }
      hfresh hsrv
    cases hc : coverage dist loadedDevices loadedServers
        { inputs := { devices := numDevices, servers_ec := numServersEC, servers_cc := numServersCC, tech := tech } } with
    | none => rw [hc] at hcov; simp at hcov
    | some v =>
      obtain ⟨a, b, c, d⟩ := v
      simp only [Option.bind_eq_bind]
      rw [hc]
      rfl

/-- C3 counterexample: with positive counts, loadable data and the
out-of-range technology id 7, `pre_calculation` does NOT return `none`;
it returns a populated state (with an empty covered list), refuting the
claim that an invalid technology id yields no state. -/
theorem c3_counterexample :
    (pre_calculation exDist [{}, c8DevNear] [{}, c8SrvE] 1 1 1 7).map
        (fun r => (decide (r.devices = [{}, c8DevNear]),
                   decide (r.servers = [{}, c8SrvE]), r.coveredDevicesIdx))
      = some (true, true, []) := by
  with_unfolding_all rfl

/-- C3 witness: the amended behaviour evaluated on concrete inputs: a
non-positive device count and empty loaded data give `none`; technology
id 7 gives a populated state with an empty covered list; a valid
instance (technology 4) gives a state. -/
theorem c3_pre_calculation_amended_witness :
    pre_calculation exDist [{}, c8DevNear] [{}, c8SrvE] 0 1 1 4 = none ∧
    pre_calculation exDist [] [{}, c8SrvE] 1 1 1 4 = none ∧
    pre_calculation exDist [{}, c8DevNear] [{}, c8SrvE] 1 1 1 7 =
      some { devices := [{}, c8DevNear], servers := [{}, c8SrvE],
             coveredDevicesIdx := [],
             metrics := { inputs :=
               { devices := 1, servers_ec := 1, servers_cc := 1, tech := 7 } } } ∧
    (pre_calculation exDist c8Devices c8Servers 2 1 1 4).isSome = true :=
  ⟨(c3_pre_calculation_amended exDist [{}, c8DevNear] [{}, c8SrvE] 0 1 1 4).1
     (Or.inl (by norm_num)),
   (c3_pre_calculation_amended exDist [] [{}, c8SrvE] 1 1 1 4).2.1
     (Or.inl rfl),
   (c3_pre_calculation_amended exDist [{}, c8DevNear] [{}, c8SrvE] 1 1 1 7).2.2.1
     (Or.inr (by norm_num)) (by norm_num) (by norm_num) (by norm_num) rfl rfl,
   (c3_pre_calculation_amended exDist c8Devices c8Servers 2 1 1 4).2.2.2
     (by norm_num) (by norm_num) (by norm_num) rfl rfl
     (by with_unfolding_all decide)⟩

/-- `get?` of an in-range index in terms of `getD`. -/
theorem get?_getD {α} {l : List α} {i : Nat} (h : i < l.length) (d : α) :
    l.get? i = some (l.getD i d) := by
  rw [List.get?_eq_get h, List.getD_eq_getElem?_getD, List.getElem?_eq_getElem h]
  rfl

/-- `getD` at the updated index. -/
theorem getD_set_same {α} {l : List α} {i : Nat} (h : i < l.length) (a d : α) :
    (l.set i a).getD i d = a := by
  simp [List.getD_eq_getElem?_getD, List.getElem?_set_eq_of_lt, h]

/-- `getD` away from the updated index. -/
theorem getD_set_other {α} {l : List α} {i j : Nat} (h : i ≠ j) (a d : α) :
    (l.set i a).getD j d = l.getD j d := by
  simp [List.getD_eq_getElem?_getD, List.getElem?_set_ne h]

/-- `wfDevice` only depends on the length of the server vector. -/
theorem wfDevice_congr {servers servers' : List Server} {d : Device}
    (h : servers'.length = servers.length) (hd : wfDevice servers d) :
    wfDevice servers' d := by
  obtain ⟨h1, h2, h3⟩ := hd
  exact ⟨h1, fun c hc => h ▸ h2 c hc, h ▸ h3⟩

/-- One random step is total from a well-formed state on a covered index,
and keeps well-formedness. -/
theorem randomStep_total {covered : List Nat} {devices : List Device}
    {servers : List Server} {d_idx seed : Nat}
    (hwf : wfCovered devices servers covered)
    (hlinks : servedLinksOK devices servers) (hd : d_idx ∈ covered) :
    ∃ st', randomStep (devices, servers) (d_idx, seed) = some st' ∧
      wfCovered st'.1 st'.2 covered ∧ servedLinksOK st'.1 st'.2 := by
  have hcov := hwf d_idx hd
  have hlt : d_idx < devices.length := hcov.1
  have hne : (devices.getD d_idx {}).servers ≠ [] := hcov.2.1
  have hids : ∀ c ∈ (devices.getD d_idx {}).servers, c.id < servers.length := hcov.2.2.1
  have hget : devices.get? d_idx = some (devices.getD d_idx {}) := get?_getD hlt {}
  unfold randomStep
  simp only []
  rw [hget]
  simp only [Option.bind_eq_bind, Option.some_bind]
  by_cases hempty : (devices.getD d_idx {}).servers.isEmpty
  · rw [if_pos hempty]
    exact ⟨(devices, servers), rfl, hwf, hlinks⟩
  · rw [if_neg hempty]
    by_cases hrej : randomNumber0 seed (devices.getD d_idx {}).servers.length =
        (devices.getD d_idx {}).servers.length
    · rw [if_pos hrej]
      exact ⟨(devices, servers), rfl, hwf, hlinks⟩
    · rw [if_neg hrej]
      have hslt : randomNumber0 seed (devices.getD d_idx {}).servers.length <
          (devices.getD d_idx {}).servers.length := by
        have h1 : randomNumber0 seed (devices.getD d_idx {}).servers.length <
            (devices.getD d_idx {}).servers.length + 1 :=
          Nat.mod_lt _ (Nat.succ_pos _)
        omega
      rw [List.get?_eq_get hslt]
      simp only [Option.some_bind]
      have hpsmem := List.get_mem (devices.getD d_idx {}).servers
        (randomNumber0 seed (devices.getD d_idx {}).servers.length) hslt
      have hpsid : ((devices.getD d_idx {}).servers.get
          ⟨randomNumber0 seed (devices.getD d_idx {}).servers.length, hslt⟩).id <
          servers.length := hids _ hpsmem
      rw [get?_getD hpsid {}]
      simp only [Option.some_bind]
      split
      · cases haddeq : (servers.getD ((devices.getD d_idx {}).servers.get
            ⟨randomNumber0 seed (devices.getD d_idx {}).servers.length, hslt⟩).id
            {}).addServed (devices.getD d_idx {}) with
        | mk server1 rest =>
          obtain ⟨device1, flag⟩ := rest
          have hfr : frameEq (devices.getD d_idx {}) device1 := by
            have h1 := addServed_device_frame (servers.getD
              ((devices.getD d_idx {}).servers.get
                ⟨randomNumber0 seed (devices.getD d_idx {}).servers.length, hslt⟩).id
              {}) (devices.getD d_idx {})
            rw [haddeq] at h1
            exact h1
          simp only []
          refine ⟨_, rfl, ?_, ?_⟩
          · intro i hi
            obtain ⟨hi1, hi2⟩ := hwf i hi
            refine ⟨by simpa using hi1, ?_⟩
            by_cases hij : i = d_idx
            · subst hij
              rw [getD_set_same hi1]
              refine @wfDevice_congr servers _ _ (by simp) ?_
              refine ⟨?_, ?_, ?_⟩
              · show ({ device1 with server := _ } : Device).servers ≠ []
                simp only []
                exact hfr.2 ▸ hne
              · intro c hc
                simp only [] at hc
                rw [← hfr.2] at hc
                exact hids c hc
              · exact hpsid
            · rw [getD_set_other (fun he => hij he.symm)]
              exact wfDevice_congr (by simp) hi2
          · intro d' hd' hserved
            rcases List.mem_or_eq_of_mem_set hd' with hmem | heq
            · have h2 := hlinks d' hmem hserved
              simpa using h2
            · subst heq
              simpa using hpsid
      · exact ⟨(devices, servers), rfl, hwf, hlinks⟩

/-- The greedy commit loop is total when all candidate ids are in range;
the resulting committed link is either the old one or one of the
candidates. -/
theorem commitFirstFeasible_total {servers : List Server} {device : Device} :
    ∀ {cands : List server_covering}, (∀ c ∈ cands, c.id < servers.length) →
      ∃ pr, commitFirstFeasible servers device cands = some pr ∧
        (pr.1.server = device.server ∨ ∃ c ∈ cands, pr.1.server = c)
  | [], _ => ⟨(device, servers), rfl, Or.inl rfl⟩
  | ps :: rest, hc => by
      have hps : ps.id < servers.length := hc ps (List.mem_cons_self ps rest)
      rw [commitFirstFeasible]
      rw [get?_getD hps {}]
      simp only [Option.bind_eq_bind, Option.some_bind]
      split
      · cases haddeq : (servers.getD ps.id {}).addServed device with
        | mk server1 rest2 =>
          obtain ⟨device1, flag⟩ := rest2
          exact ⟨_, rfl, Or.inr ⟨ps, List.mem_cons_self ps rest, rfl⟩⟩
      · obtain ⟨pr, hpr, hsrv⟩ :=
          commitFirstFeasible_total (fun c h => hc c (List.mem_cons_of_mem ps h))
        refine ⟨pr, hpr, ?_⟩
        rcases hsrv with h | ⟨c, hcm, he⟩
        · exact Or.inl h
        · exact Or.inr ⟨c, List.mem_cons_of_mem ps hcm, he⟩

/-- One greedy step is total from a well-formed state on a covered index,
and keeps well-formedness. -/
theorem greedyStep_total {covered : List Nat} {devices : List Device}
    {servers : List Server} {ascS : Bool} {d_idx : Nat}
    (hwf : wfCovered devices servers covered)
    (hlinks : servedLinksOK devices servers) (hd : d_idx ∈ covered) :
    ∃ st', greedyStep ascS (devices, servers) d_idx = some st' ∧
      wfCovered st'.1 st'.2 covered ∧ servedLinksOK st'.1 st'.2 := by
  have hcov := hwf d_idx hd
  have hlt : d_idx < devices.length := hcov.1
  have hne : (devices.getD d_idx {}).servers ≠ [] := hcov.2.1
  have hids : ∀ c ∈ (devices.getD d_idx {}).servers, c.id < servers.length := hcov.2.2.1
  have hlink : (devices.getD d_idx {}).server.id < servers.length := hcov.2.2.2
  have hget : devices.get? d_idx = some (devices.getD d_idx {}) := get?_getD hlt {}
  have hperm : ((devices.getD d_idx {}).servers).Perm
      (sortByResponseTime ascS (devices.getD d_idx {}).servers) :=
    (List.perm_insertionSort _ _).symm
  have hids2 : ∀ c ∈ sortByResponseTime ascS (devices.getD d_idx {}).servers,
      c.id < servers.length := fun c hc => hids c (hperm.mem_iff.mpr hc)
  have hsne : sortByResponseTime ascS (devices.getD d_idx {}).servers ≠ [] := by
    intro h0
    have hp2 := hperm
    rw [h0] at hp2
    exact hne (List.Perm.eq_nil hp2)
  obtain ⟨pr, hpr, hsrvlink⟩ := @commitFirstFeasible_total
    servers
    { devices.getD d_idx {} with
      servers := sortByResponseTime ascS (devices.getD d_idx {}).servers }
    (sortByResponseTime ascS (devices.getD d_idx {}).servers) hids2
  obtain ⟨hfr, hsfr, _, _⟩ := commitFirstFeasible_spec hpr
  have hsrvlen : pr.2.length = servers.length := (List.Forall₂.length_eq hsfr).symm
  unfold greedyStep
  simp only []
  rw [hget]
  simp only [Option.bind_eq_bind, Option.some_bind]
  rw [hpr]
  simp only [Option.some_bind, Option.pure_def]
  refine ⟨_, rfl, ?_, ?_⟩
  · intro i hi
    obtain ⟨hi1, hi2⟩ := hwf i hi
    refine ⟨by simpa using hi1, ?_⟩
    by_cases hij : i = d_idx
    · subst hij
      rw [getD_set_same hi1]
      refine @wfDevice_congr servers _ _ hsrvlen ?_
      refine ⟨?_, ?_, ?_⟩
      · rw [← hfr.2]
        exact hsne
      · intro c hc
        rw [← hfr.2] at hc
        exact hids2 c hc
      · rcases hsrvlink with h | ⟨c, hcm, he⟩
        · rw [h]; exact hlink
        · rw [he]; exact hids2 c hcm
    · rw [getD_set_other (fun he => hij he.symm)]
      exact wfDevice_congr hsrvlen hi2
  · intro d' hd' hserved
    rcases List.mem_or_eq_of_mem_set hd' with hmem | heq
    · rw [hsrvlen]
      exact hlinks d' hmem hserved
    · subst heq
      rw [hsrvlen]
      rcases hsrvlink with h | ⟨c, hcm, he⟩
      · rw [h]; exact hlink
      · rw [he]; exact hids2 c hcm

/-- The neighbor candidate loop is total when the current link, the
candidate ids and the shuffled indices are all in range. -/
theorem tryMoves_total {devices : List Device} {servers : List Server}
    {d_idx : Nat} {device : Device} {cns csu : ℚ}
    (hold : device.server.id < servers.length)
    (hids : ∀ c ∈ device.servers, c.id < servers.length) :
    ∀ {order : List Nat} {tries : Nat},
      (∀ k ∈ order, k < device.servers.length) →
      ∃ out, tryMoves devices servers d_idx device cns csu order tries = some out
  | [], tries, _ => ⟨_, rfl⟩
  | idxServers :: rest, tries, horder => by
      rw [tryMoves]
      by_cases htries : 5 ≤ tries
      · rw [if_pos htries]
        exact ⟨_, rfl⟩
      · rw [if_neg htries]
        have hk : idxServers < device.servers.length :=
          horder idxServers (List.mem_cons_self idxServers rest)
        rw [List.get?_eq_get hk]
        simp only [Option.bind_eq_bind, Option.some_bind]
        have hpsmem := List.get_mem device.servers idxServers hk
        have hpsid : (device.servers.get ⟨idxServers, hk⟩).id < servers.length :=
          hids _ hpsmem
        split
        · exact tryMoves_total hold hids
            (fun k hkm => horder k (List.mem_cons_of_mem idxServers hkm))
        · rw [get?_getD hold {}]
          simp only [Option.some_bind]
          rw [get?_getD hpsid {}]
          simp only [Option.some_bind]
          split
          · split
            · cases hrmveq : (servers.getD device.server.id {}).rmvServed device with
              | mk old1 rest2 =>
                obtain ⟨device1, flag1⟩ := rest2
                cases haddeq : (servers.getD (device.servers.get ⟨idxServers, hk⟩).id
                    {}).addServed device1 with
                | mk new1 rest3 =>
                  obtain ⟨device2, flag2⟩ := rest3
                  exact ⟨_, rfl⟩
            · cases haddeq : (servers.getD (device.servers.get ⟨idxServers, hk⟩).id
                  {}).addServed device with
              | mk new1 rest3 =>
                obtain ⟨device1, flag2⟩ := rest3
                exact ⟨_, rfl⟩
          · exact tryMoves_total hold hids
              (fun k hkm => horder k (List.mem_cons_of_mem idxServers hkm))

/-- `generateNeighbor` is total on a well-formed state with a NON-EMPTY
covered list (the amendment: with an empty covered list the C++ throws)
whenever the shuffled candidate order is in range for the picked device. -/
theorem generateNeighbor_total {devices : List Device} {servers : List Server}
    {covered : List Nat} {pickSeed : Nat} {shuffleOrder : List Nat} {cns csu : ℚ}
    (hcov : covered ≠ []) (hwf : wfCovered devices servers covered)
    (horder : ∀ idx device, covered.get? (randomNumber0 pickSeed (covered.length - 1)) =
        some idx → devices.get? idx = some device →
        ∀ k ∈ shuffleOrder, k < device.servers.length) :
    ∃ out, generateNeighbor devices servers covered pickSeed shuffleOrder cns csu =
      some out := by
  have hlen : 0 < covered.length := List.length_pos.mpr hcov
  have hidx : randomNumber0 pickSeed (covered.length - 1) < covered.length := by
    have h1 : randomNumber0 pickSeed (covered.length - 1) < (covered.length - 1) + 1 :=
      Nat.mod_lt _ (Nat.succ_pos _)
    omega
  unfold generateNeighbor
  rw [if_neg (by simpa using hcov)]
  simp only []
  rw [List.get?_eq_get hidx]
  simp only [Option.bind_eq_bind, Option.some_bind]
  have hdmem := List.get_mem covered (randomNumber0 pickSeed (covered.length - 1)) hidx
  have hdwf := hwf _ hdmem
  rw [get?_getD hdwf.1 {}]
  simp only [Option.some_bind]
  rw [if_neg (by simpa using hdwf.2.1)]
  exact tryMoves_total hdwf.2.2.2 hdwf.2.2.1
    (horder (covered.get ⟨randomNumber0 pickSeed (covered.length - 1), hidx⟩)
      (devices.getD (covered.get ⟨randomNumber0 pickSeed (covered.length - 1), hidx⟩) {})
      (List.get?_eq_get hidx) (get?_getD hdwf.1 {}))

/-- `calculateMetrics` is total when every served device's committed-link
id is in range. -/
theorem calculateMetrics_total {devices : List Device} {servers : List Server}
    {m : Metrics} (h : servedLinksOK devices servers) :
    ∃ m', calculateMetrics devices servers m = some m' := by
  obtain ⟨acc, hacc, _⟩ := foldlM_option_total
    (f := devMetricsStep servers) (P := fun _ => True)
    (Q := fun d => d.served = true → d.server.id < servers.length)
    (fun acc d _ hQ => by
      obtain ⟨sc, ec, cc, art, cns⟩ := acc
      unfold devMetricsStep
      simp only []
      by_cases h0 : d.id = 0
      · rw [if_pos h0]; exact ⟨_, rfl, trivial⟩
      · rw [if_neg h0]
        by_cases hs : d.served
        · rw [if_pos hs]
          rw [get?_getD (hQ hs) {}]
          simp only []
          split <;> exact ⟨_, rfl, trivial⟩
        · rw [if_neg hs]
          split
          · exact ⟨_, rfl, trivial⟩
          · exact ⟨_, rfl, trivial⟩)
    devices (0, 0, 0, 0, 0) trivial h
  unfold calculateMetrics
  rw [hacc]
  simp only [Option.bind_eq_bind, Option.some_bind]
  exact ⟨_, rfl⟩

/-- C10 (amended): on a validated run state — every covered index in
range, every covered device with a non-empty candidate list of in-range
server ids and an in-range committed link — the random heuristic and the
greedy heuristic are total.  The simulated-annealing neighbor step is
total ONLY under the additional amendment that the covered-device list
is non-empty (with an empty one the C++ `randomNumber(0, -1)` guard
throws) and the candidate shuffle is in range for the picked device (as
`shuffledRange` guarantees). -/
theorem c10_heuristics_total_amended (state : Result) (order : List (Nat × Nat))
    (ascD ascS : Bool) (devices : List Device) (servers : List Server)
    (covered : List Nat) (pickSeed : Nat) (shuffleOrder : List Nat) (cns csu : ℚ)
    (hwf : wfCovered state.devices state.servers state.coveredDevicesIdx)
    (hlinks : servedLinksOK state.devices state.servers)
    (horder : ∀ p ∈ order, p.1 ∈ state.coveredDevicesIdx)
    (hwf2 : wfCovered devices servers covered)
    (hcov : covered ≠ [])
    (hshuffle : ∀ idx device,
        covered.get? (randomNumber0 pickSeed (covered.length - 1)) = some idx →
        devices.get? idx = some device →
        ∀ k ∈ shuffleOrder, k < device.servers.length) :
    (randomHeuristic state order).isSome = true ∧
    (greedyHeuristic state ascD ascS).isSome = true ∧
    (generateNeighbor devices servers covered pickSeed shuffleOrder cns csu).isSome
      = true := by
  refine ⟨?_, ?_, ?_⟩
  · obtain ⟨st', hfold, hP⟩ := foldlM_option_total
      (f := randomStep)
      (P := fun st : List Device × List Server =>
        wfCovered st.1 st.2 state.coveredDevicesIdx ∧ servedLinksOK st.1 st.2)
      (Q := fun p : Nat × Nat => p.1 ∈ state.coveredDevicesIdx)
      (fun st a hP hQ => by
        obtain ⟨st2, heq, h1, h2⟩ :=
          @randomStep_total _ st.1 st.2 _ a.2 hP.1 hP.2 hQ
        exact ⟨st2, heq, h1, h2⟩)
      order (state.devices, state.servers) ⟨hwf, hlinks⟩ horder
    obtain ⟨m', hm⟩ := calculateMetrics_total (m := state.metrics) hP.2
    unfold randomHeuristic
    simp only [Option.bind_eq_bind]
    rw [hfold]
    simp only [Option.some_bind]
    rw [hm]
    rfl
  · have hsort : ∃ sorted, sortEntities ascD state.devices state.coveredDevicesIdx =
        some sorted ∧ ∀ i ∈ sorted, i ∈ state.coveredDevicesIdx := by
      unfold sortEntities
      by_cases h0 : state.devices.isEmpty || state.coveredDevicesIdx.isEmpty
      · rw [if_pos h0]
        exact ⟨[], rfl, by simp⟩
      · rw [if_neg h0, if_pos (by
          simp only [List.all_eq_true, decide_eq_true_eq]
          exact fun i hi => (hwf i hi).1)]
        exact ⟨_, rfl, fun i hi => (List.perm_insertionSort _ _).subset hi⟩
    obtain ⟨sorted, hsorteq, hsortmem⟩ := hsort
    obtain ⟨st', hfold, hP⟩ := foldlM_option_total
      (f := greedyStep ascS)
      (P := fun st : List Device × List Server =>
        wfCovered st.1 st.2 state.coveredDevicesIdx ∧ servedLinksOK st.1 st.2)
      (Q := fun i : Nat => i ∈ state.coveredDevicesIdx)
      (fun st a hP hQ => by
        obtain ⟨st2, heq, h1, h2⟩ :=
          @greedyStep_total _ st.1 st.2 ascS _ hP.1 hP.2 hQ
        exact ⟨st2, heq, h1, h2⟩)
      sorted (state.devices, state.servers) ⟨hwf, hlinks⟩ hsortmem
    obtain ⟨m', hm⟩ := calculateMetrics_total (m := state.metrics) hP.2
    unfold greedyHeuristic
    simp only [Option.bind_eq_bind]
    rw [hsorteq]
    simp only [Option.some_bind]
    rw [hfold]
    simp only [Option.some_bind]
    rw [hm]
    rfl
  · obtain ⟨out, hout⟩ := @generateNeighbor_total _ _ _ _ _ cns csu
      hcov hwf2 hshuffle
    rw [hout]
    rfl

/-- C10 counterexample: a run state with ZERO covered devices satisfies
every well-formedness premise of the claim vacuously (and is reachable:
pre-calculation yields it whenever no device is in radius), yet the
neighbor step fails: the C++ calls `utils::randomNumber(0, -1)` whose
`min > max` guard throws `std::invalid_argument`. -/
theorem c10_counterexample :
    wfCovered exState.devices exState.servers [] ∧
    generateNeighbor exState.devices exState.servers [] 0 [] 10 0 = none :=
  ⟨fun i hi => absurd hi (List.not_mem_nil i), by with_unfolding_all rfl⟩

/-- C10 witness: the three totality conclusions evaluated on the
concrete one-device instance (well-formed, one covered device). -/
theorem c10_heuristics_total_amended_witness :
    wfCovered exState.devices exState.servers exState.coveredDevicesIdx ∧
    servedLinksOK exState.devices exState.servers ∧
    (randomHeuristic exState [(1, 0)]).isSome = true ∧
    (greedyHeuristic exState true true).isSome = true ∧
    (generateNeighbor exState.devices exState.servers [1] 0 [0] 10 0).isSome = true := by
  have hsh : ∀ idx device,
      ([1] : List Nat).get? (randomNumber0 0 (([1] : List Nat).length - 1)) = some idx →
      exState.devices.get? idx = some device →
      ∀ k ∈ ([0] : List Nat), k < device.servers.length := by
    intro idx device h1 h2 k hk
    simp only [List.mem_singleton] at hk
    subst hk
    have e1 : ([1] : List Nat).get? (randomNumber0 0 (([1] : List Nat).length - 1)) =
        some 1 := by with_unfolding_all rfl
    rw [e1] at h1
    have h1' : idx = 1 := (Option.some_inj.mp h1).symm
    subst h1'
    have e2 : exState.devices.get? 1 = some exDev1 := by with_unfolding_all rfl
    rw [e2] at h2
    have h2' : device = exDev1 := (Option.some_inj.mp h2).symm
    subst h2'
    with_unfolding_all decide
  have key := c10_heuristics_total_amended exState [(1, 0)] true true
    exState.devices exState.servers [1] 0 [0] 10 0
    (by with_unfolding_all decide) (by with_unfolding_all decide)
    (by intro p hp; simp only [List.mem_singleton] at hp; subst hp; with_unfolding_all decide)
    (by with_unfolding_all decide) (by with_unfolding_all decide) hsh
  exact ⟨by with_unfolding_all decide, by with_unfolding_all decide,
    key.1, key.2.1, key.2.2⟩

/-- `tail.get?` in terms of the original list. -/
theorem get?_tail_eq {α} (l : List α) (k : Nat) : l.tail.get? k = l.get? (k + 1) := by
  cases l <;> simp

/-- Completeness of the edge scan: every in-radius edge server yields its
candidate. -/
theorem edgeCandidates_complete {dist : ℚ × ℚ → ℚ × ℚ → ℚ} {d : Device}
    {radius : ℚ} :
    ∀ {l : List Server} {j0 k : Nat} {s : Server}, l.get? k = some s →
      s.type = 'E' → dist (d.lat, d.lon) (s.lat, s.lon) ≤ radius →
      ({ id := j0 + k, distance := dist (d.lat, d.lon) (s.lat, s.lon) } :
        server_covering) ∈ edgeCandidates dist d radius j0 l := by
  intro l
  induction l with
  | nil => intro j0 k s h; simp at h
  | cons hd rest ih =>
      intro j0 k s hget htype hdist
      cases k with
      | zero =>
          simp only [List.get?_cons_zero, Option.some.injEq] at hget
          subst hget
          rw [edgeCandidates, if_pos ⟨htype, hdist⟩]
          rw [Nat.add_zero]
          exact List.mem_cons_self _ _
      | succ k' =>
          simp only [List.get?_cons_succ] at hget
          have hmem := @ih (j0 + 1) _ _ hget htype hdist
          rw [show j0 + (k' + 1) = (j0 + 1) + k' by omega]
          rw [edgeCandidates]
          split
          · exact List.mem_cons_of_mem _ hmem
          · exact hmem

/-- Soundness of the edge scan: every produced candidate comes from an
in-radius edge server at the corresponding offset. -/
theorem edgeCandidates_sound {dist : ℚ × ℚ → ℚ × ℚ → ℚ} {d : Device}
    {radius : ℚ} :
    ∀ {l : List Server} {j0 : Nat} {c : server_covering},
      c ∈ edgeCandidates dist d radius j0 l →
      ∃ k s, l.get? k = some s ∧ s.type = 'E' ∧
        dist (d.lat, d.lon) (s.lat, s.lon) ≤ radius ∧
        c = { id := j0 + k, distance := dist (d.lat, d.lon) (s.lat, s.lon) } := by
  intro l
  induction l with
  | nil => intro j0 c h; simp [edgeCandidates] at h
  | cons hd rest ih =>
      intro j0 c h
      rw [edgeCandidates] at h
      split at h
      · rename_i hcond
        rcases List.mem_cons.mp h with rfl | h2
        · exact ⟨0, hd, rfl, hcond.1, hcond.2, by rw [Nat.add_zero]⟩
        · obtain ⟨k, s, hget, htype, hdist, he⟩ := ih h2
          exact ⟨k + 1, s, by simpa using hget, htype, hdist,
            by rw [show j0 + (k + 1) = (j0 + 1) + k by omega]; exact he⟩
      · obtain ⟨k, s, hget, htype, hdist, he⟩ := ih h
        exact ⟨k + 1, s, by simpa using hget, htype, hdist,
          by rw [show j0 + (k + 1) = (j0 + 1) + k by omega]; exact he⟩

/-- Completeness of the cloud scan. -/
theorem cloudCandidates_complete :
    ∀ {l : List Server} {j0 k : Nat} {s : Server}, l.get? k = some s →
      s.type = 'C' →
      ({ id := j0 + k } : server_covering) ∈ cloudCandidates j0 l := by
  intro l
  induction l with
  | nil => intro j0 k s h; simp at h
  | cons hd rest ih =>
      intro j0 k s hget htype
      cases k with
      | zero =>
          simp only [List.get?_cons_zero, Option.some.injEq] at hget
          subst hget
          rw [cloudCandidates, if_pos htype, Nat.add_zero]
          exact List.mem_cons_self _ _
      | succ k' =>
          simp only [List.get?_cons_succ] at hget
          have hmem := @ih (j0 + 1) _ _ hget htype
          rw [show j0 + (k' + 1) = (j0 + 1) + k' by omega]
          rw [cloudCandidates]
          split
          · exact List.mem_cons_of_mem _ hmem
          · exact hmem

/-- `coverDevice` never changes the `cnd` field. -/
theorem coverDevice_cnd (dist : ℚ × ℚ → ℚ × ℚ → ℚ) (servers : List Server)
    (radius : ℚ) (d : Device) : (coverDevice dist servers radius d).cnd = d.cnd := by
  unfold coverDevice
  simp only []
  split <;> rfl

/-- The non-coverage fold adds exactly the `cnd` of the uncovered
devices. -/
theorem ncov_foldl :
    ∀ (l : List Device) (init : ℚ),
      l.foldl (fun acc d => if d.covered then acc else acc + d.cnd) init =
        init + ((l.filter (fun d => !d.covered)).map (fun d => d.cnd)).sum := by
  intro l
  induction l with
  | nil => intro init; simp
  | cons d rest ih =>
      intro init
      by_cases hc : d.covered
      · simp only [List.foldl_cons, hc, if_true, List.filter_cons, Bool.not_true]
        rw [ih]
        simp [hc]
      · simp only [List.foldl_cons, hc, if_false, List.filter_cons]
        rw [ih]
        simp only [Bool.not_eq_true']
        have hcb : d.covered = false := Bool.eq_false_iff.mpr hc
        simp [hcb]
        ring

/-- For a fresh device, the covered flag after `coverDevice` is exactly
"some edge candidate was found". -/
theorem coverDevice_covered {dist : ℚ × ℚ → ℚ × ℚ → ℚ} {servers : List Server}
    {radius : ℚ} {d : Device} (hfresh : d.covered = false) :
    (coverDevice dist servers radius d).covered =
      !(edgeCandidates dist d radius 1 servers.tail).isEmpty := by
  unfold coverDevice
  simp only []
  split <;> simp [hfresh]

/-- Every edge candidate survives into the device's final candidate
list. -/
theorem coverDevice_mem_edge {dist : ℚ × ℚ → ℚ × ℚ → ℚ} {servers : List Server}
    {radius : ℚ} {d : Device} {c : server_covering}
    (hc : c ∈ edgeCandidates dist d radius 1 servers.tail) :
    c ∈ (coverDevice dist servers radius d).servers := by
  unfold coverDevice
  simp only []
  split
  · exact List.mem_append.mpr (Or.inl (List.mem_append.mpr (Or.inr hc)))
  · exact List.mem_append.mpr (Or.inr hc)

/-- Every cloud candidate joins a covered device's final candidate
list. -/
theorem coverDevice_mem_cloud {dist : ℚ × ℚ → ℚ × ℚ → ℚ} {servers : List Server}
    {radius : ℚ} {d : Device} {c : server_covering}
    (hcov : (coverDevice dist servers radius d).covered = true)
    (hc : c ∈ cloudCandidates 1 servers.tail) :
    c ∈ (coverDevice dist servers radius d).servers := by
  unfold coverDevice at hcov ⊢
  simp only [] at hcov ⊢
  split
  · exact List.mem_append.mpr (Or.inr hc)
  · rename_i hcond
    split at hcov
    · rename_i hcond2
      exact absurd hcond2 hcond
    · exact absurd hcov (by simpa using hcond)

/-- The tail of `mapTail` is the mapped tail. -/
theorem mapTail_tail {α} (f : α → α) : ∀ l : List α, (mapTail f l).tail = l.tail.map f
  | [] => rfl
  | _ :: _ => rfl

/-- The non-coverage component written by `findCovering`. -/
theorem findCovering_ncov (dist : ℚ × ℚ → ℚ × ℚ → ℚ) (devices : List Device)
    (servers : List Server) (radius : ℚ) (m : Metrics) :
    (findCovering dist devices servers radius m).2.2.outputs.cost_of_non_coverage =
      (mapTail (coverDevice dist servers radius) devices).tail.foldl
        (fun acc d => if d.covered then acc else acc + d.cnd)
        m.outputs.cost_of_non_coverage := rfl

/-- C8: after the coverage step on fresh devices: a device is covered
iff some edge server (index ≥ 1; index 0 is the placeholder) lies within
the coverage radius; every in-radius edge server contributes its
candidate link; a covered device additionally gets every cloud server as
a candidate; and the non-coverage cost grows by exactly the sum of the
uncovered devices' non-service costs.  (`dist` abstracts
`utils::calculateDistance`; the devices processed are the tail map of
`coverDevice`, as `findCovering` shows.) -/
theorem c8_coverage_step (dist : ℚ × ℚ → ℚ × ℚ → ℚ) (devices : List Device)
    (servers : List Server) (radius : ℚ) (m : Metrics)
    (hfresh : ∀ d ∈ devices.tail, d.covered = false) :
    (findCovering dist devices servers radius m).2.1 =
      mapTail (coverDevice dist servers radius) devices ∧
    (∀ d ∈ devices.tail,
      ((coverDevice dist servers radius d).covered = true ↔
        ∃ j s, 1 ≤ j ∧ servers.get? j = some s ∧ s.type = 'E' ∧
          dist (d.lat, d.lon) (s.lat, s.lon) ≤ radius) ∧
      (∀ j s, 1 ≤ j → servers.get? j = some s → s.type = 'E' →
        dist (d.lat, d.lon) (s.lat, s.lon) ≤ radius →
        ({ id := j, distance := dist (d.lat, d.lon) (s.lat, s.lon) } :
          server_covering) ∈ (coverDevice dist servers radius d).servers) ∧
      ((coverDevice dist servers radius d).covered = true →
        ∀ j s, 1 ≤ j → servers.get? j = some s → s.type = 'C' →
          ({ id := j } : server_covering) ∈
            (coverDevice dist servers radius d).servers)) ∧
    (findCovering dist devices servers radius m).2.2.outputs.cost_of_non_coverage =
      m.outputs.cost_of_non_coverage +
        ((devices.tail.filter
            (fun d => !(coverDevice dist servers radius d).covered)).map
          (fun d => d.cnd)).sum := by
  refine ⟨rfl, ?_, ?_⟩
  · intro d hd
    refine ⟨?_, ?_, ?_⟩
    · rw [coverDevice_covered (hfresh d hd)]
      constructor
      · intro hne
        have hnonempty : edgeCandidates dist d radius 1 servers.tail ≠ [] := by
          intro h0
          rw [h0] at hne
          simp at hne
        obtain ⟨c, hc⟩ := List.exists_mem_of_ne_nil _ hnonempty
        obtain ⟨k, s, hget, htype, hdist, _⟩ := edgeCandidates_sound hc
        rw [get?_tail_eq] at hget
        exact ⟨k + 1, s, by omega, hget, htype, hdist⟩
      · rintro ⟨j, s, hj, hget, htype, hdist⟩
        have hget2 : servers.tail.get? (j - 1) = some s := by
          rw [get?_tail_eq, show j - 1 + 1 = j by omega]
          exact hget
        have hmem := @edgeCandidates_complete _ _ _ _ 1 _ _ hget2 htype hdist
        have hne := List.ne_nil_of_mem hmem
        simpa [List.isEmpty_iff] using hne
    · intro j s hj hget htype hdist
      have hget2 : servers.tail.get? (j - 1) = some s := by
        rw [get?_tail_eq, show j - 1 + 1 = j by omega]
        exact hget
      have hmem := @edgeCandidates_complete dist d radius _ 1 _ _ hget2 htype hdist
      rw [show 1 + (j - 1) = j by omega] at hmem
      exact coverDevice_mem_edge hmem
    · intro hcov j s hj hget htype
      have hget2 : servers.tail.get? (j - 1) = some s := by
        rw [get?_tail_eq, show j - 1 + 1 = j by omega]
        exact hget
      have hmem := @cloudCandidates_complete _ 1 _ _ hget2 htype
      rw [show 1 + (j - 1) = j by omega] at hmem
      exact coverDevice_mem_cloud hcov hmem
  · rw [findCovering_ncov, mapTail_tail, ncov_foldl, List.filter_map, List.map_map]
    simp only [Function.comp_def]
    congr 1
    refine congrArg List.sum ?_
    refine List.map_congr_left ?_
    intro d hd
    exact coverDevice_cnd dist servers radius d

/-- Witness for the C8 theorem on the concrete two-device, two-server
scenario: the near device (distance 2.9 ≤ radius 3) is covered, the far
device (distance 3.1) is not, and its cost 7 is charged. -/
theorem c8_coverage_step_witness :
    (∀ d ∈ c8Devices.tail, d.covered = false) ∧
    ((findCovering exDist c8Devices c8Servers 3 {}).2.1 =
        mapTail (coverDevice exDist c8Servers 3) c8Devices ∧
      (∀ d ∈ c8Devices.tail,
        ((coverDevice exDist c8Servers 3 d).covered = true ↔
          ∃ j s, 1 ≤ j ∧ c8Servers.get? j = some s ∧ s.type = 'E' ∧
            exDist (d.lat, d.lon) (s.lat, s.lon) ≤ 3) ∧
        (∀ j s, 1 ≤ j → c8Servers.get? j = some s → s.type = 'E' →
          exDist (d.lat, d.lon) (s.lat, s.lon) ≤ 3 →
          ({ id := j, distance := exDist (d.lat, d.lon) (s.lat, s.lon) } :
            server_covering) ∈ (coverDevice exDist c8Servers 3 d).servers) ∧
        ((coverDevice exDist c8Servers 3 d).covered = true →
          ∀ j s, 1 ≤ j → c8Servers.get? j = some s → s.type = 'C' →
            ({ id := j } : server_covering) ∈
              (coverDevice exDist c8Servers 3 d).servers)) ∧
      (findCovering exDist c8Devices c8Servers 3
            {}).2.2.outputs.cost_of_non_coverage =
        ({} : Metrics).outputs.cost_of_non_coverage +
          ((c8Devices.tail.filter
              (fun d => !(coverDevice exDist c8Servers 3 d).covered)).map
            (fun d => d.cnd)).sum) :=
  ⟨by with_unfolding_all decide,
    c8_coverage_step exDist c8Devices c8Servers 3 {}
      (by with_unfolding_all decide)⟩
